import Mathlib

/-!
Verification of the bubble-chamber event generator, geometry, numbering,
scoring, rendering and hit-testing core of the cloud_academy repository.

The TypeScript source is shallowly embedded: floating-point numbers are
modelled as real numbers, `undefined`/optional fields as `Option`, JS
records as association lists or functions, and every stochastic draw
(`Math.random()`-derived value) becomes an explicit real/natural parameter
constrained, in the theorems, by the range the source draws it from.
-/

namespace CloudAcademy

noncomputable section

open Real

/-- A point in the plane (normalized chamber coordinates or pixels). -/
structure Pt where
  x : ℝ
  y : ℝ

/-- JS `Math.atan2(y, x)`, embedded as the argument of the complex number
`x + i y` (principal value, matching `atan2` away from the negative x-axis). -/
def atan2 (y x : ℝ) : ℝ := Complex.arg ⟨x, y⟩

/-- Shape kind of a track: `'straight' | 'curved' | 'spiral'`. -/
inductive TrackType where
  | straight
  | curved
  | spiral
deriving DecidableEq, Repr

/-- Embedding of the `decayProducts` array element type of `ParticleTrack`. -/
structure DecayProduct where
  color : String
  width : ℝ
  angle : ℝ
  length : ℝ
  radius : Option ℝ := none
  decayPoint : Option Pt := none
  leptonAngle : Option ℝ := none
  muonCharge : Option ℤ := none
  muonMomentum : Option ℝ := none
  pionNeutrinoAngle : Option ℝ := none
  muonNeutrino1Angle : Option ℝ := none
  muonNeutrino2Angle : Option ℝ := none

/-- Embedding of the `ParticleTrack` interface of the particle generator. -/
structure Track where
  name : String
  symbol : String
  particleType : String
  charge : ℤ
  momentum : ℝ
  origin : Pt
  type : TrackType
  color : String
  width : ℝ
  radius : Option ℝ := none
  angle : Option ℝ := none
  length : Option ℝ := none
  turns : Option ℝ := none
  shrinkSpiral : Bool := false
  decayPoint : Option Pt := none
  decayProducts : Option (List DecayProduct) := none
  description : Option String := none
  trackNumber : Option ℕ := none

/-! ### Generator-side geometry (normalized chamber coordinates)

The generator computes decay points in normalized coordinates; these are
the shape end-point formulas it uses (`origin + length·direction` for
straight tracks, `center + radius·e^{i(angle + length·2π)}` with
`center = origin − radius·e^{i·angle}` for arcs). -/

/-- End point of a straight segment from `origin` with direction `a` and
length `L` (normalized coordinates). -/
def straightEndFrom (origin : Pt) (a L : ℝ) : Pt :=
  ⟨origin.x + Real.cos a * L, origin.y + Real.sin a * L⟩

/-- End point of a circular arc starting at `origin`, with start angle `a`
(center at `origin − r·(cos a, sin a)`), radius `r` and length-fraction `L`
(sweep `L·2π`), exactly as the generator computes decay points. -/
def arcEndFrom (origin : Pt) (r a L : ℝ) : Pt :=
  ⟨origin.x - Real.cos a * r + Real.cos (a + L * π * 2) * r,
   origin.y - Real.sin a * r + Real.sin (a + L * π * 2) * r⟩

/-- End point of a track's own shape at its stated parameters, using the
renderer's default values for missing fields (`angle ?? 0`,
`length ?? 0.4` straight / `0.3` curved, `radius ?? 0.2`). -/
def straightEndN (t : Track) : Pt :=
  straightEndFrom t.origin (t.angle.getD 0) (t.length.getD 0.4)

/-- Arc end point of a track's own shape at its stated parameters. -/
def arcEndN (t : Track) : Pt :=
  arcEndFrom t.origin (t.radius.getD 0.2) (t.angle.getD 0) (t.length.getD 0.3)

/-- A track's stored decay point lies exactly at the end point of its own
shape locus (straight or arc; no generated spiral track carries a decay
point, so the spiral case is required to be unreachable). -/
def decayConsistent (t : Track) : Prop :=
  ∀ dp, t.decayPoint = some dp →
    match t.type with
    | .straight => dp = straightEndN t
    | .curved => dp = arcEndN t
    | .spiral => False

/-! ### Pion scenario (`projectileType === 'pion'`) -/

/-- The charge-selection rule of the pion scenario
(`if (rand < 0.33) π⁻ else if (rand < 0.66) π⁺ else π⁰`). -/
def pionChargeOf (r : ℝ) : ℤ :=
  if r < 0.33 then -1 else if r < 0.66 then 1 else 0

/-- Pion direction in the pion scenario: horizontal, 0 radians. -/
def pionDirectionPS : ℝ := 0

/-- Length of the incoming pion track: distance from `(0, 0.5)` to the decay
point `(0.5, 0.5)`, computed with `Math.sqrt` as in the source. -/
def pionLengthPS : ℝ := Real.sqrt ((0.5 - 0) ^ 2 + (0.5 - 0.5) ^ 2)

/-- Momentum vector of the incoming charged pion. -/
def pionMomentumVecPS (pM : ℝ) : Pt :=
  ⟨pM * Real.cos pionDirectionPS, pM * Real.sin pionDirectionPS⟩

/-- Muon momentum magnitude: `pionMomentum * randomBetween(0.4, 0.8)`. -/
def muonMomentumPS (pM muFr : ℝ) : ℝ := pM * muFr

/-- Muon emission angle: pion direction plus a `±0.1` rad spread draw. -/
def muonAnglePS (muSp : ℝ) : ℝ := pionDirectionPS + muSp

/-- Muon momentum vector in the pion scenario. -/
def muonMomentumVecPS (pM muFr muSp : ℝ) : Pt :=
  ⟨muonMomentumPS pM muFr * Real.cos (muonAnglePS muSp),
   muonMomentumPS pM muFr * Real.sin (muonAnglePS muSp)⟩

/-- Neutrino momentum vector, obtained by vector subtraction
`p_ν = p_π − p_μ` (the source's conservation construction). -/
def neutrinoMomentumVecPS (pM muFr muSp : ℝ) : Pt :=
  ⟨(pionMomentumVecPS pM).x - (muonMomentumVecPS pM muFr muSp).x,
   (pionMomentumVecPS pM).y - (muonMomentumVecPS pM muFr muSp).y⟩

/-- Direction of the pion-decay neutrino, `atan2(p_νy, p_νx)`. -/
def pionNeutrinoAnglePS (pM muFr muSp : ℝ) : ℝ :=
  atan2 (neutrinoMomentumVecPS pM muFr muSp).y (neutrinoMomentumVecPS pM muFr muSp).x

/-- Start angle of the muon arc, adjusted so the initial tangent matches
the muon emission angle (`muonAngle − (charge > 0 ? π/2 : −π/2)`). -/
def muonTrackAnglePS (q : ℤ) (muSp : ℝ) : ℝ :=
  muonAnglePS muSp - (if 0 < q then π / 2 else -(π / 2))

/-- Muon arc radius: `randomBetween(0.1, 0.25) * (15 / muonMomentum)`. -/
def muonRadiusPS (pM muFr muRadB : ℝ) : ℝ := muRadB * (15 / muonMomentumPS pM muFr)

/-- End angle of the muon arc: start angle plus `length·2π`. -/
def muonEndAnglePS (q : ℤ) (muSp muL : ℝ) : ℝ :=
  muonTrackAnglePS q muSp + muL * π * 2

/-- Center of the muon arc: pion decay point minus `radius·e^{i·startAngle}`. -/
def muonCenterPS (q : ℤ) (pM muFr muSp muRadB : ℝ) : Pt :=
  ⟨0.5 - Real.cos (muonTrackAnglePS q muSp) * muonRadiusPS pM muFr muRadB,
   0.5 - Real.sin (muonTrackAnglePS q muSp) * muonRadiusPS pM muFr muRadB⟩

/-- The muon's decay point, computed at the end of the muon arc. -/
def muonDecayPointPS (q : ℤ) (pM muFr muSp muL muRadB : ℝ) : Pt :=
  ⟨(muonCenterPS q pM muFr muSp muRadB).x +
     Real.cos (muonEndAnglePS q muSp muL) * muonRadiusPS pM muFr muRadB,
   (muonCenterPS q pM muFr muSp muRadB).y +
     Real.sin (muonEndAnglePS q muSp muL) * muonRadiusPS pM muFr muRadB⟩

/-- The charged-pion track of the pion scenario, with its nested
muon decay product, exactly as assembled by the source. -/
def chargedPionTrack (q : ℤ) (pM muFr muSp muL muRadB lSp n1Sp n2Sp : ℝ) : Track :=
  { name := if q < 0 then "Pión (π⁻)" else "Pión (π⁺)"
    symbol := if q < 0 then "π⁻" else "π⁺"
    particleType := "Pión"
    charge := q
    momentum := pM
    origin := ⟨0, 0.5⟩
    type := .straight
    color := "#51cf66"
    width := 2.5
    angle := some pionDirectionPS
    length := some pionLengthPS
    decayPoint := some ⟨0.5, 0.5⟩
    decayProducts := some
      [{ color := "#4dabf7"
         width := 2
         angle := muonTrackAnglePS q muSp
         length := muL
         radius := some (muonRadiusPS pM muFr muRadB)
         decayPoint := some (muonDecayPointPS q pM muFr muSp muL muRadB)
         leptonAngle := some (muonEndAnglePS q muSp muL + lSp)
         muonCharge := some q
         muonMomentum := some (muonMomentumPS pM muFr)
         pionNeutrinoAngle := some (pionNeutrinoAnglePS pM muFr muSp)
         muonNeutrino1Angle := some (muonEndAnglePS q muSp muL - n1Sp)
         muonNeutrino2Angle := some (muonEndAnglePS q muSp muL + π + n2Sp) }]
    description := some (if q < 0 then "Pión negativo que decae en muón y neutrino"
                         else "Pión positivo que decae en antimuón y neutrino")
    trackNumber := some 1 }

/-- The π⁰ track of the neutral branch of the pion scenario. -/
def pionZeroTrackPS (pM : ℝ) : Track :=
  { name := "Pión (π⁰)", symbol := "π⁰", particleType := "Pión"
    charge := 0
    momentum := pM
    origin := ⟨0, 0.5⟩
    type := .straight
    color := "#94d2ff"
    width := 2
    angle := some pionDirectionPS
    length := some pionLengthPS
    decayPoint := some ⟨0.5, 0.5⟩
    description := some "Pión neutro que decae en fotón, electrón y positrón"
    trackNumber := some 1 }

/-! ### Photon pair-production scenario (`projectileType === 'photon'`) -/

/-- Pair-production point: `(randomBetween(0.3,0.7), 0.5 + randomBetween(-0.1,0.1))`. -/
def pairProductionPoint (ppX ppDY : ℝ) : Pt := ⟨ppX, 0.5 + ppDY⟩

/-- Photon direction, `atan2(pp.y − 0.5, pp.x − 0)`. -/
def photonDirection (ppX ppDY : ℝ) : ℝ :=
  atan2 ((pairProductionPoint ppX ppDY).y - 0.5) ((pairProductionPoint ppX ppDY).x - 0)

/-- Photon track length: distance from `(0, 0.5)` to the pair-production point. -/
def photonTrackLength (ppX ppDY : ℝ) : ℝ :=
  Real.sqrt (((pairProductionPoint ppX ppDY).x - 0) ^ 2 +
    ((pairProductionPoint ppX ppDY).y - 0.5) ^ 2)

/-- The invisible photon track, carrying the pair-production point as its
decay point. -/
def photonScenPhotonTrack (ppX ppDY energy : ℝ) : Track :=
  { name := "Fotón (γ)", symbol := "γ", particleType := "Gamma"
    charge := 0
    momentum := energy
    origin := ⟨0, 0.5⟩
    type := .straight
    color := "#cccccc"
    width := 1
    angle := some (photonDirection ppX ppDY)
    length := some (photonTrackLength ppX ppDY)
    decayPoint := some (pairProductionPoint ppX ppDY)
    description := some "Fotón que produce un par electrón-positrón"
    trackNumber := some 3 }

/-- The electron spiral of the photon scenario. -/
def photonScenElectronTrack (ppX ppDY energy eFr baseSp opening eRad eTurns : ℝ) : Track :=
  { name := "Electrón (e⁻)", symbol := "e⁻", particleType := "Electrón"
    charge := -1
    momentum := energy * eFr
    origin := pairProductionPoint ppX ppDY
    type := .spiral
    color := "#ffd43b"
    width := 1.5
    radius := some eRad
    angle := some ((photonDirection ppX ppDY + baseSp - opening / 2) - (-1 : ℝ) * (π / 2))
    shrinkSpiral := true
    turns := some eTurns
    description := some "Electrón del par producido por el fotón"
    trackNumber := some 1 }

/-- The positron spiral of the photon scenario. -/
def photonScenPositronTrack (ppX ppDY energy pFr baseSp opening pRad pTurns : ℝ) : Track :=
  { name := "Positrón (e⁺)", symbol := "e⁺", particleType := "Positrón"
    charge := 1
    momentum := energy * pFr
    origin := pairProductionPoint ppX ppDY
    type := .spiral
    color := "#ff8787"
    width := 1.5
    radius := some pRad
    angle := some ((photonDirection ppX ppDY + baseSp + opening / 2) - (1 : ℝ) * (π / 2))
    shrinkSpiral := true
    turns := some pTurns
    description := some "Positrón del par producido por el fotón"
    trackNumber := some 2 }

/-- The full track list returned by the photon branch of
`generateParticleTracks`: electron, positron, then the invisible photon. -/
def photonScenarioTracks (ppX ppDY energy eFr pFr baseSp opening eRad eTurns pRad pTurns : ℝ) :
    List Track :=
  [photonScenElectronTrack ppX ppDY energy eFr baseSp opening eRad eTurns,
   photonScenPositronTrack ppX ppDY energy pFr baseSp opening pRad pTurns,
   photonScenPhotonTrack ppX ppDY energy]

/-! ### Muon scenario (`projectileType === 'muon'`) -/

/-- Muon decay point: `(randomBetween(0.3,0.7), 0.5 + randomBetween(-0.1,0.1))`. -/
def muonScenDecayPoint (dpX dpDY : ℝ) : Pt := ⟨dpX, 0.5 + dpDY⟩

/-- Muon direction, `atan2(dp.y − 0.5, dp.x − 0)`. -/
def muonScenDirection (dpX dpDY : ℝ) : ℝ :=
  atan2 ((muonScenDecayPoint dpX dpDY).y - 0.5) ((muonScenDecayPoint dpX dpDY).x - 0)

/-- Muon track length: distance from `(0, 0.5)` to the decay point. -/
def muonScenLength (dpX dpDY : ℝ) : ℝ :=
  Real.sqrt (((muonScenDecayPoint dpX dpDY).x - 0) ^ 2 +
    ((muonScenDecayPoint dpX dpDY).y - 0.5) ^ 2)

/-- The incoming muon track of the muon scenario (straight, carrying the
decay point and the neutrino-bearing decay product). -/
def muonScenMuonTrack (minus : Bool) (dpX dpDY muM lepSp n1Sp n2Sp : ℝ) : Track :=
  { name := if minus then "Muón (μ⁻)" else "Muón (μ⁺)"
    symbol := if minus then "μ⁻" else "μ⁺"
    particleType := "Muón"
    charge := if minus then -1 else 1
    momentum := muM
    origin := ⟨0, 0.5⟩
    type := .straight
    color := "#4dabf7"
    width := 2
    angle := some (muonScenDirection dpX dpDY)
    length := some (muonScenLength dpX dpDY)
    decayPoint := some (muonScenDecayPoint dpX dpDY)
    decayProducts := some
      [{ color := "#ffffff"
         width := 0.5
         angle := muonScenDirection dpX dpDY - n1Sp
         length := 0.5
         leptonAngle := some (muonScenDirection dpX dpDY + lepSp)
         muonCharge := some (if minus then (-1 : ℤ) else 1)
         muonMomentum := some muM
         muonNeutrino1Angle := some (muonScenDirection dpX dpDY - n1Sp)
         muonNeutrino2Angle := some (muonScenDirection dpX dpDY + π + n2Sp) }]
    description := some (if minus then "Muón que se desintegra en electrón y dos neutrinos"
                         else "Antimuón que se desintegra en positrón y dos neutrinos")
    trackNumber := some 2 }

/-! ### Neutron scenario (`projectileType === 'neutron'`) -/

/-- Neutron decay point: `(randomBetween(0.3,0.7), 0.5 + randomBetween(-0.1,0.1))`. -/
def neutronScenDecayPoint (dpX dpDY : ℝ) : Pt := ⟨dpX, 0.5 + dpDY⟩

/-- Neutron direction, `atan2(dp.y − 0.5, dp.x − 0)`. -/
def neutronDirection (dpX dpDY : ℝ) : ℝ :=
  atan2 ((neutronScenDecayPoint dpX dpDY).y - 0.5) ((neutronScenDecayPoint dpX dpDY).x - 0)

/-- The neutron's momentum vector: its momentum magnitude along its direction. -/
def neutronMomentumVec (nM dpX dpDY : ℝ) : Pt :=
  ⟨nM * Real.cos (neutronDirection dpX dpDY), nM * Real.sin (neutronDirection dpX dpDY)⟩

/-- Proton momentum magnitude: `neutronMomentum * randomBetween(0.5, 0.7)`. -/
def protonMomentumN (nM pFr : ℝ) : ℝ := nM * pFr

/-- Electron momentum magnitude: `neutronMomentum * randomBetween(0.2, 0.3)`. -/
def electronMomentumN (nM eFr : ℝ) : ℝ := nM * eFr

/-- Proton emission direction: neutron direction plus a `±0.15` rad draw. -/
def protonDirectionN (dpX dpDY pSp : ℝ) : ℝ := neutronDirection dpX dpDY + pSp

/-- Electron emission direction: neutron direction plus a `±0.25` rad draw. -/
def electronDirectionN (dpX dpDY eSp : ℝ) : ℝ := neutronDirection dpX dpDY + eSp

/-- Proton momentum vector in the neutron decay.  The source computes only
the magnitude and the direction; no vector subtraction is performed and no
neutrino momentum is ever computed (the neutrino decay product carries only
an angle, `neutrinoAngle = neutronDirection + randomBetween(-π/2, π/2)`). -/
def protonMomentumVecN (nM pFr dpX dpDY pSp : ℝ) : Pt :=
  ⟨protonMomentumN nM pFr * Real.cos (protonDirectionN dpX dpDY pSp),
   protonMomentumN nM pFr * Real.sin (protonDirectionN dpX dpDY pSp)⟩

/-- Electron momentum vector in the neutron decay. -/
def electronMomentumVecN (nM eFr dpX dpDY eSp : ℝ) : Pt :=
  ⟨electronMomentumN nM eFr * Real.cos (electronDirectionN dpX dpDY eSp),
   electronMomentumN nM eFr * Real.sin (electronDirectionN dpX dpDY eSp)⟩

/-- The invisible neutron track (straight, with decay point and a
neutrino-only decay product). -/
def neutronScenNeutronTrack (dpX dpDY nM nuSp : ℝ) : Track :=
  { name := "Neutrón (n)", symbol := "n", particleType := "Neutrón"
    charge := 0
    momentum := nM
    origin := ⟨0, 0.5⟩
    type := .straight
    color := "#94d2ff"
    width := 2
    angle := some (neutronDirection dpX dpDY)
    length := some (Real.sqrt (((neutronScenDecayPoint dpX dpDY).x - 0) ^ 2 +
      ((neutronScenDecayPoint dpX dpDY).y - 0.5) ^ 2))
    decayPoint := some (neutronScenDecayPoint dpX dpDY)
    decayProducts := some
      [{ color := "#ffffff"
         width := 0.5
         angle := neutronDirection dpX dpDY + nuSp
         length := 0.5
         pionNeutrinoAngle := some (neutronDirection dpX dpDY + nuSp) }]
    description := some "Neutrón que se desintegra en protón, electrón y antineutrino electrónico"
    trackNumber := some 3 }

/-! ### Proton-proton scenario (default) -/

/-- Beam angle of the incoming proton, `atan2(0.5 − 0.5, 0.5 − 0)`. -/
def ppBaseAngle : ℝ := atan2 (0.5 - 0.5) (0.5 - 0)

/-- Number of π⁺π⁻ pairs: `r < 1.0 → 1`, with the 2- and 3-pair branches
structurally unreachable (`r ≥ 1` is impossible for `Math.random()`). -/
def numPionPairs (r : ℝ) : ℕ :=
  if r < 1 then 1 else if r < 0.8 then 2 else 3

/-- Pion arc radius: `randomBetween(0.15,0.35) * (10/momentum) * (1/numPionPairs)`. -/
def ppPionRadius (radB m : ℝ) (nP : ℕ) : ℝ := radB * (10 / m) * (1 / nP)

/-- Pion arc length-fraction: `randomBetween(0.3,0.6) * (1/numPionPairs)`. -/
def ppPionLength (lenB : ℝ) (nP : ℕ) : ℝ := lenB * (1 / nP)

/-- End angle of the pion arc: `angle + length·2π` (no charge handedness). -/
def ppEndAngle (a lenB : ℝ) (nP : ℕ) : ℝ := a + ppPionLength lenB nP * π * 2

/-- Decay point of a proton-proton pion, at the geometric end of its arc
from the collision point `(0.5, 0.5)`. -/
def ppPionDecayPoint (a m radB lenB : ℝ) (nP : ℕ) : Pt :=
  ⟨0.5 - Real.cos a * ppPionRadius radB m nP + Real.cos (ppEndAngle a lenB nP) * ppPionRadius radB m nP,
   0.5 - Real.sin a * ppPionRadius radB m nP + Real.sin (ppEndAngle a lenB nP) * ppPionRadius radB m nP⟩

/-- `chargeSign`: `charge < 0 ? -1 : 1`. -/
def ppChargeSign (q : ℤ) : ℝ := if q < 0 then -1 else 1

/-- Pion momentum direction at its decay point: arc tangent
`endAngle + chargeSign·π/2`. -/
def ppPionDirection (q : ℤ) (a lenB : ℝ) (nP : ℕ) : ℝ :=
  ppEndAngle a lenB nP + ppChargeSign q * π / 2

/-- Momentum vector of a proton-proton pion at its decay point. -/
def ppPionMomentumVec (q : ℤ) (a m lenB : ℝ) (nP : ℕ) : Pt :=
  ⟨m * Real.cos (ppPionDirection q a lenB nP), m * Real.sin (ppPionDirection q a lenB nP)⟩

/-- Muon momentum magnitude in the nested pion decay. -/
def ppMuonMomentum (m mFr : ℝ) : ℝ := m * mFr

/-- Muon angle in the nested pion decay: pion direction plus `±0.1` rad. -/
def ppMuonAngle (q : ℤ) (a lenB mSp : ℝ) (nP : ℕ) : ℝ :=
  ppPionDirection q a lenB nP + mSp

/-- Muon momentum vector in the nested pion decay. -/
def ppMuonMomentumVec (q : ℤ) (a m lenB mFr mSp : ℝ) (nP : ℕ) : Pt :=
  ⟨ppMuonMomentum m mFr * Real.cos (ppMuonAngle q a lenB mSp nP),
   ppMuonMomentum m mFr * Real.sin (ppMuonAngle q a lenB mSp nP)⟩

/-- Neutrino momentum vector in the nested pion decay, `p_ν = p_π − p_μ`. -/
def ppNeutrinoMomentumVec (q : ℤ) (a m lenB mFr mSp : ℝ) (nP : ℕ) : Pt :=
  ⟨(ppPionMomentumVec q a m lenB nP).x - (ppMuonMomentumVec q a m lenB mFr mSp nP).x,
   (ppPionMomentumVec q a m lenB nP).y - (ppMuonMomentumVec q a m lenB mFr mSp nP).y⟩

/-- Neutrino direction in the nested pion decay. -/
def ppPionNeutrinoAngle (q : ℤ) (a m lenB mFr mSp : ℝ) (nP : ℕ) : ℝ :=
  atan2 (ppNeutrinoMomentumVec q a m lenB mFr mSp nP).y
    (ppNeutrinoMomentumVec q a m lenB mFr mSp nP).x

/-- Muon arc radius in the nested pion decay. -/
def ppMuonRadius (m mFr mRadB : ℝ) : ℝ := mRadB * (15 / ppMuonMomentum m mFr)

/-- Muon arc end angle in the nested pion decay (`muonAngle + length·2π`). -/
def ppMuonEndAngle (q : ℤ) (a lenB mSp muL : ℝ) (nP : ℕ) : ℝ :=
  ppMuonAngle q a lenB mSp nP + muL * π * 2

/-- Muon decay point in the nested pion decay, at the end of the muon arc
anchored at the pion's decay point. -/
def ppMuonDecayPoint (q : ℤ) (a m radB lenB mFr mSp muL mRadB : ℝ) (nP : ℕ) : Pt :=
  ⟨(ppPionDecayPoint a m radB lenB nP).x -
      Real.cos (ppMuonAngle q a lenB mSp nP) * ppMuonRadius m mFr mRadB +
      Real.cos (ppMuonEndAngle q a lenB mSp muL nP) * ppMuonRadius m mFr mRadB,
   (ppPionDecayPoint a m radB lenB nP).y -
      Real.sin (ppMuonAngle q a lenB mSp nP) * ppMuonRadius m mFr mRadB +
      Real.sin (ppMuonEndAngle q a lenB mSp muL nP) * ppMuonRadius m mFr mRadB⟩

/-- A charged-pion track of the proton-proton scenario (curved), with its
nested muon decay product, exactly as the loop body assembles it. -/
def ppPionTrack (q : ℤ) (a m radB lenB mFr mSp muL mRadB lSp n1Sp n2Sp : ℝ) (nP tn : ℕ) :
    Track :=
  { name := if q < 0 then "Pión (π⁻)" else "Pión (π⁺)"
    symbol := if q < 0 then "π⁻" else "π⁺"
    particleType := "Pión"
    charge := q
    momentum := m
    origin := ⟨0.5, 0.5⟩
    type := .curved
    color := "#51cf66"
    width := 2.5
    radius := some (ppPionRadius radB m nP)
    angle := some a
    length := some (ppPionLength lenB nP)
    decayPoint := some (ppPionDecayPoint a m radB lenB nP)
    decayProducts := some
      [{ color := "#4dabf7"
         width := 2
         angle := ppMuonAngle q a lenB mSp nP
         length := muL
         radius := some (ppMuonRadius m mFr mRadB)
         decayPoint := some (ppMuonDecayPoint q a m radB lenB mFr mSp muL mRadB nP)
         leptonAngle := some (ppMuonEndAngle q a lenB mSp muL nP + lSp)
         muonCharge := some q
         muonMomentum := some (ppMuonMomentum m mFr)
         pionNeutrinoAngle := some (ppPionNeutrinoAngle q a m lenB mFr mSp nP)
         muonNeutrino1Angle := some (ppMuonEndAngle q a lenB mSp muL nP - n1Sp)
         muonNeutrino2Angle := some (ppMuonEndAngle q a lenB mSp muL nP + π + n2Sp) }]
    description := some "Mesón ligero, puede decaer en muón y neutrino"
    trackNumber := some tn }

/-- Direction of the π⁰ emitted at the proton-proton vertex. -/
def ppPi0Angle (sp : ℝ) : ℝ := ppBaseAngle + sp

/-- Decay point of the proton-proton π⁰, `collisionPoint + 0.08·direction`. -/
def ppPi0DecayPoint (sp : ℝ) : Pt :=
  ⟨0.5 + Real.cos (ppPi0Angle sp) * 0.08, 0.5 + Real.sin (ppPi0Angle sp) * 0.08⟩

/-- The π⁰ track of the proton-proton scenario (straight, length `0.08`). -/
def ppPi0Track (pM sp : ℝ) (tn : ℕ) : Track :=
  { name := "Pión (π⁰)", symbol := "π⁰", particleType := "Pión"
    charge := 0
    momentum := pM * 0.1
    origin := ⟨0.5, 0.5⟩
    type := .straight
    color := "#94d2ff"
    width := 2
    angle := some (ppPi0Angle sp)
    length := some 0.08
    decayPoint := some (ppPi0DecayPoint sp)
    description := some "Pión neutro, decae casi inmediatamente"
    trackNumber := some tn }

/-! ### Scoring (`calculateScore` and its helpers in the chamber component) -/

/-- Association-list lookup, mirroring JS record access `rec[key]`
(returns `none` when the key is absent). -/
def lookupKey {β : Type} : List (ℕ × β) → ℕ → Option β
  | [], _ => none
  | kv :: rest, s => if s = kv.1 then some kv.2 else lookupKey rest s

/-- `calculateTotalParticles`: number of tracks carrying a `trackNumber`,
plus one per decay product with a `muonCharge` and one more when that
product also carries a `leptonAngle`. -/
def calculateTotalParticles (tracks : List Track) : ℕ :=
  tracks.countP (fun t => t.trackNumber.isSome) +
  tracks.foldl (fun acc t =>
    acc + (t.decayProducts.getD []).foldl (fun a p =>
      a + (match p.muonCharge with
           | some _ => 1 + (match p.leptonAngle with | some _ => 1 | none => 0)
           | none => 0)) 0) 0

/-- `calculateNeutrinoCount`: one neutrino per decay product with a
`pionNeutrinoAngle`, two more when both muon-neutrino angles are present. -/
def calculateNeutrinoCount (tracks : List Track) : ℕ :=
  tracks.foldl (fun acc t =>
    acc + (t.decayProducts.getD []).foldl (fun a p =>
      a + (if p.pionNeutrinoAngle.isSome then 1 else 0)
        + (if p.muonNeutrino1Angle.isSome ∧ p.muonNeutrino2Angle.isSome then 2 else 0)) 0) 0

/-- `getParticleMap`: map of ground-truth numbers to particle symbols; decay
products are numbered from `max trackNumber` upward in iteration order. -/
def getParticleMap (tracks : List Track) : List (ℕ × String) :=
  let maxTn := tracks.foldl (fun m t => max m (t.trackNumber.getD 0)) 0
  (tracks.foldl (fun (acc : List (ℕ × String) × ℕ) t =>
    let acc1 : List (ℕ × String) × ℕ :=
      match t.trackNumber with
      | some tn => (acc.1 ++ [(tn, t.symbol)], acc.2)
      | none => acc
    (t.decayProducts.getD []).foldl (fun (a : List (ℕ × String) × ℕ) p =>
      match p.muonCharge with
      | some mc =>
        let c := a.2 + 1
        let withMuon := a.1 ++ [(c, if mc < 0 then "μ⁻" else "μ⁺")]
        match p.leptonAngle with
        | some _ => (withMuon ++ [(c + 1, if mc < 0 then "e⁻" else "e⁺")], c + 1)
        | none => (withMuon, c)
      | none => a) acc1) (([], maxTn) : List (ℕ × String) × ℕ)).1

/-- Number of correct identifications: entries of the submitted record whose
value equals the ground-truth symbol of `reverseMapping[shuffled] ?? shuffled`
(missing map entries default to the empty string, as in the source). -/
def countCorrect (idents : List (ℕ × String)) (rev : ℕ → Option ℕ)
    (pmap : ℕ → Option String) : ℕ :=
  idents.countP (fun kv => decide (kv.2 = (pmap ((rev kv.1).getD kv.1)).getD ""))

/-- `calculateScore`: each correct particle is worth `100/(N+2)`; the
neutrino budget `100 − 100/(N+2)` is scaled by `correct/real` where
`correct` is `real` on an exact non-empty guess and `0` otherwise; the sum
is clamped into `[0, 100]`. -/
def calculateScore (tracks : List Track) (idents : List (ℕ × String))
    (rev : ℕ → Option ℕ) (pmap : ℕ → Option String) (guess : Option ℕ) : ℝ :=
  let totalParticles := calculateTotalParticles tracks
  let realNeutrinoCount := calculateNeutrinoCount tracks
  if totalParticles = 0 then 0
  else
    let pointsPerParticle : ℝ := 100 / (totalParticles + 2)
    let correctParticles := countCorrect idents rev pmap
    let particlePoints : ℝ := correctParticles * pointsPerParticle
    let remainingPoints : ℝ := 100 - 100 / (totalParticles + 2)
    let correctNeutrinoCount : ℕ :=
      match guess with
      | some g => if g = realNeutrinoCount then realNeutrinoCount else 0
      | none => 0
    let neutrinoPoints : ℝ :=
      if 0 < realNeutrinoCount then
        remainingPoints / realNeutrinoCount * correctNeutrinoCount
      else 0
    min 100 (max 0 (particlePoints + neutrinoPoints))

/-! ### Numbering and shuffle (`generateNewEvent`) -/

/-- Swap of the values of an array (modelled as a function) at two indices. -/
def swapFn (f : ℕ → ℕ) (a b : ℕ) : ℕ → ℕ :=
  fun k => if k = a then f b else if k = b then f a else f k

/-- The Fisher-Yates loop over the `rest` array: `fyFrom j i f` runs the
iterations `i, i−1, …, 1`, each swapping index `k` with index `j k`
(the draw `Math.floor(Math.random()*(k+1))`). -/
def fyFrom (j : ℕ → ℕ) : ℕ → (ℕ → ℕ) → (ℕ → ℕ)
  | 0, f => f
  | i + 1, f => fyFrom j i (swapFn f (i + 1) (j (i + 1)))

/-- Initial contents of the `rest` array: `numbers.slice(1) = [2, …, N]`,
so index `k` holds `k + 2`. -/
def restInitial : ℕ → ℕ := fun k => k + 2

/-- The shuffled array `[1, ...rest]`: index 0 is pinned to 1, index
`i ≥ 1` holds the shuffled rest at `i − 1` (loop runs from `N−2` down). -/
def shuffledFn (N : ℕ) (j : ℕ → ℕ) (i : ℕ) : ℕ :=
  if i = 0 then 1 else fyFrom j (N - 2) restInitial (i - 1)

/-- `mapping[original] = shuffled[i]` where `original = numbers[i] = i+1`:
as a function, original number `o` maps to `shuffled (o − 1)`. -/
def numberMapping (N : ℕ) (j : ℕ → ℕ) (o : ℕ) : ℕ := shuffledFn N j (o - 1)

/-- The reverse record, built as `reverse[shuffled[i]] = numbers[i]`. -/
def reversePairs (N : ℕ) (j : ℕ → ℕ) : List (ℕ × ℕ) :=
  (List.range N).map (fun i => (shuffledFn N j i, i + 1))

/-- Reverse-mapping lookup with the source's fallback
(`reverseMapping[s] ?? s`). -/
def reverseMapping (N : ℕ) (j : ℕ → ℕ) (s : ℕ) : ℕ :=
  (lookupKey (reversePairs N j) s).getD s

/-! ### Renderer geometry (`getTrackEndPoint`, `getTrackMidPoint`,
`getLineCanvasIntersection`) -/

/-- `getTrackEndPoint`: end point of a track's shape in pixel coordinates.
The arc end angle is `angle + length·2π` for every charge; handedness
enters only the spiral case. -/
def getTrackEndPoint (t : Track) (w h : ℝ) : Pt :=
  match t.type with
  | .straight =>
    ⟨t.origin.x * w + Real.cos (t.angle.getD 0) * (t.length.getD 0.4) * w,
     t.origin.y * h + Real.sin (t.angle.getD 0) * (t.length.getD 0.4) * h⟩
  | .curved =>
    let r := (t.radius.getD 0.2) * min w h
    let a := t.angle.getD 0
    let ea := a + (t.length.getD 0.3) * π * 2
    ⟨t.origin.x * w - Real.cos a * r + Real.cos ea * r,
     t.origin.y * h - Real.sin a * r + Real.sin ea * r⟩
  | .spiral =>
    let r := (t.radius.getD 0.1) * min w h
    let ba := t.angle.getD 0
    let handed : ℝ := if t.charge < 0 then -1 else 1
    if t.shrinkSpiral then
      ⟨t.origin.x * w - Real.cos ba * r, t.origin.y * h - Real.sin ba * r⟩
    else
      ⟨t.origin.x * w + Real.cos (ba + handed * (t.turns.getD 3) * π * 2) * r,
       t.origin.y * h + Real.sin (ba + handed * (t.turns.getD 3) * π * 2) * r⟩

/-- The spec's claimed arc end point with a charge-handedness-signed sweep
`length·2π·sign(charge)`.  Modelled from the spec sentence "sweep =
length·2π·handedness(charge)" for comparison with `getTrackEndPoint`;
this is NOT what the source computes. -/
def specArcEndPointHanded (t : Track) (w h : ℝ) : Pt :=
  let r := (t.radius.getD 0.2) * min w h
  let a := t.angle.getD 0
  let ea := a + (t.charge.sign : ℝ) * (t.length.getD 0.3) * π * 2
  ⟨t.origin.x * w - Real.cos a * r + Real.cos ea * r,
   t.origin.y * h - Real.sin a * r + Real.sin ea * r⟩

/-- A concrete negatively charged curved track (a π⁻-style arc with
origin `(0.5, 0.5)`, radius `0.1`, start angle `0`, length `0.25`), used
to compare the end-point conventions. -/
def negativeArcTrack : Track :=
  { name := "Pión (π⁻)", symbol := "π⁻", particleType := "Pión"
    charge := -1
    momentum := 10
    origin := ⟨0.5, 0.5⟩
    type := .curved
    color := "#51cf66"
    width := 2.5
    radius := some 0.1
    angle := some 0
    length := some 0.25 }

/-- `getTrackMidPoint`: label anchor at the halfway point of the shape
(origin for spirals). -/
def getTrackMidPoint (t : Track) (w h : ℝ) : Pt :=
  match t.type with
  | .straight =>
    ⟨t.origin.x * w + Real.cos (t.angle.getD 0) * (t.length.getD 0.4) * w * 0.5,
     t.origin.y * h + Real.sin (t.angle.getD 0) * (t.length.getD 0.4) * h * 0.5⟩
  | .curved =>
    let r := (t.radius.getD 0.2) * min w h
    let a := t.angle.getD 0
    let ma := a + (t.length.getD 0.3) * π * 2 * 0.5
    ⟨t.origin.x * w - Real.cos a * r + Real.cos ma * r,
     t.origin.y * h - Real.sin a * r + Real.sin ma * r⟩
  | .spiral => ⟨t.origin.x * w, t.origin.y * h⟩

/-- An edge-intersection candidate of `getLineCanvasIntersection`:
a boundary point and its parametric distance along the ray. -/
structure Cand where
  x : ℝ
  y : ℝ
  t : ℝ

/-- The four conditional edge candidates (left, right, top, bottom), each
admitted only when the ray points toward that edge and the intersection
lies within the edge segment. -/
def lineCandidates (startX startY angle w h : ℝ) : List Cand :=
  let c := Real.cos angle
  let s := Real.sin angle
  (if c < 0 then
    let tl := (0 - startX) / c
    let yl := startY + tl * s
    if 0 ≤ yl ∧ yl ≤ h then [⟨0, yl, tl⟩] else []
   else []) ++
  (if 0 < c then
    let tr := (w - startX) / c
    let yr := startY + tr * s
    if 0 ≤ yr ∧ yr ≤ h then [⟨w, yr, tr⟩] else []
   else []) ++
  (if s < 0 then
    let tt := (0 - startY) / s
    let xt := startX + tt * c
    if 0 ≤ xt ∧ xt ≤ w then [⟨xt, 0, tt⟩] else []
   else []) ++
  (if 0 < s then
    let tb := (h - startY) / s
    let xb := startX + tb * c
    if 0 ≤ xb ∧ xb ≤ w then [⟨xb, h, tb⟩] else []
   else [])

/-- `getLineCanvasIntersection`: reduce the candidates to the one with the
smallest positive `t`; with no candidates, return the deterministic
out-of-view fallback `start + 2·max(w,h)·direction`. -/
def getLineCanvasIntersection (startX startY angle w h : ℝ) : Pt :=
  match lineCandidates startX startY angle w h with
  | [] =>
    ⟨startX + Real.cos angle * (max w h * 2),
     startY + Real.sin angle * (max w h * 2)⟩
  | c :: rest =>
    let closest := rest.foldl
      (fun m cur => if 0 < cur.t ∧ (m.t ≤ 0 ∨ cur.t < m.t) then cur else m) c
    ⟨closest.x, closest.y⟩

/-! ### Hover resolution (`handleMouseMove` hit-testing) -/

/-- A rendered label's screen position as pushed into `labelPositions`. -/
structure LabelPosition where
  track : Track
  x : ℝ
  y : ℝ
  symbol : String

/-- The fixed label hit radius in pixels (`LABEL_THRESHOLD = 30`). -/
def LABEL_THRESHOLD : ℝ := 30

/-- The normalized-distance hover threshold (`TRACK_HOVER_THRESHOLD = 0.05`). -/
def TRACK_HOVER_THRESHOLD : ℝ := 0.05

/-- The strict-minimum scan shared by both hover searches: keep the current
best and running minimum, replacing them whenever `dsq l < min`. -/
def goMin {α : Type} (dsq : α → ℝ) : List α → ℝ → Option α → Option α
  | [], _, best => best
  | l :: ls, m, best =>
    if dsq l < m then goMin dsq ls (dsq l) (some l) else goMin dsq ls m best

/-- Squared pixel distance from the pointer to a label. -/
def labelDistSq (px py : ℝ) (l : LabelPosition) : ℝ :=
  (px - l.x) * (px - l.x) + (py - l.y) * (py - l.y)

/-- Squared normalized distance from the pointer to a track's origin. -/
def trackOriginDistSq (nx ny : ℝ) (t : Track) : ℝ :=
  (t.origin.x - nx) * (t.origin.x - nx) + (t.origin.y - ny) * (t.origin.y - ny)

/-- The label search of `handleMouseMove`: nearest label strictly within
the squared label threshold. -/
def findClosestLabel (labels : List LabelPosition) (px py : ℝ) : Option LabelPosition :=
  goMin (labelDistSq px py) labels (LABEL_THRESHOLD * LABEL_THRESHOLD) none

/-- The origin-fallback search of `handleMouseMove`: nearest track origin
strictly within the squared normalized threshold. -/
def findClosestTrack (tracks : List Track) (nx ny : ℝ) : Option Track :=
  goMin (trackOriginDistSq nx ny) tracks (TRACK_HOVER_THRESHOLD * TRACK_HOVER_THRESHOLD) none

/-- Hover resolution: in identified mode with rendered labels, the label
search wins; otherwise fall back to the nearest track origin. -/
def hoverTarget (identified : Bool) (labels : List LabelPosition) (tracks : List Track)
    (px py nx ny : ℝ) : Option Track :=
  let hoveredLabel :=
    if identified = true ∧ 0 < labels.length then findClosestLabel labels px py else none
  match hoveredLabel with
  | some l => some l.track
  | none => findClosestTrack tracks nx ny

/-! ### Rendering (`drawTrack` and `drawDecayKink`), as emitted draw
commands plus collected label positions -/

/-- A drawable path: line segment, circular arc (with the canvas
counterclockwise flag), or (shrinking/growing) spiral. -/
inductive PathSpec where
  | line (x1 y1 x2 y2 : ℝ)
  | arc (cx cy r a1 a2 : ℝ) (ccw : Bool)
  | spiralArc (cx cy r baseAngle turns handedness : ℝ) (shrink : Bool)

/-- A drawing command: a stroked path with its style, a numbered badge
(pre-reveal), or a particle-symbol label. -/
inductive DrawCmd where
  | stroke (color : String) (lineWidth : ℝ) (dash : List ℕ) (alpha : ℝ) (path : PathSpec)
  | numberBadge (n : ℕ) (x y : ℝ)
  | textLabel (s : String) (x y : ℝ)

/-- The main-track path drawn by `drawSpiral` / `drawCurvedTrack` /
`drawStraightTrack` (pixel coordinates). -/
def mainTrackPath (t : Track) (w h : ℝ) : PathSpec :=
  match t.type with
  | .spiral =>
    let r := (t.radius.getD 0.1) * min w h
    let ba := t.angle.getD 0
    let handed : ℝ := if t.charge < 0 then -1 else 1
    let cx := if t.shrinkSpiral then t.origin.x * w - Real.cos ba * r else t.origin.x * w
    let cy := if t.shrinkSpiral then t.origin.y * h - Real.sin ba * r else t.origin.y * h
    PathSpec.spiralArc cx cy r ba (t.turns.getD 3) handed t.shrinkSpiral
  | .curved =>
    let r := (t.radius.getD 0.2) * min w h
    let a := t.angle.getD 0
    PathSpec.arc (t.origin.x * w - Real.cos a * r) (t.origin.y * h - Real.sin a * r) r a
      (a + (t.length.getD 0.3) * π * 2) (decide (t.charge < 0))
  | .straight =>
    PathSpec.line (t.origin.x * w) (t.origin.y * h)
      (t.origin.x * w + Real.cos (t.angle.getD 0) * (t.length.getD 0.4) * w)
      (t.origin.y * h + Real.sin (t.angle.getD 0) * (t.length.getD 0.4) * h)

/-- The per-product body of `drawDecayKink`'s `forEach`: emits the muon
arc, the pion-decay neutrino ray and label (identified mode), the muon
badge/label, the lepton spiral with its badge/label, and the two
muon-decay neutrino rays with labels (identified mode); threads the decay
numbering counter.  `ambDash`/`ambAlpha` are the canvas dash and alpha
inherited from `drawTrack`. -/
def drawKinkProduct (t : Track) (p : DecayProduct) (w h kinkX kinkY : ℝ)
    (identified showForm : Bool) (numMap : ℕ → Option ℕ) (ambDash : List ℕ) (ambAlpha : ℝ)
    (counter : ℕ) : List DrawCmd × List LabelPosition × ℕ :=
  let muonRadius := (p.radius.getD 0.15) * min w h
  let mcx := kinkX - Real.cos p.angle * muonRadius
  let mcy := kinkY - Real.sin p.angle * muonRadius
  let arcCmd := DrawCmd.stroke (if identified then p.color else "#ffffff") p.width ambDash
    ambAlpha (PathSpec.arc mcx mcy muonRadius p.angle (p.angle + p.length * π * 2)
      (decide (t.charge < 0)))
  let muonEndAngle := p.angle + p.length * π * 2
  let mdX := mcx + Real.cos muonEndAngle * muonRadius
  let mdY := mcy + Real.sin muonEndAngle * muonRadius
  let pionNu : List DrawCmd × List LabelPosition :=
    if identified = true then
      match p.pionNeutrinoAngle with
      | some a =>
        let e := getLineCanvasIntersection kinkX kinkY a w h
        let midX := (kinkX + e.x) / 2
        let midY := (kinkY + e.y) / 2
        let sym := if t.charge < 0 then "ν̄μ" else "νμ"
        ([DrawCmd.stroke "#ffffff" 0.5 [2, 4] 0.8 (PathSpec.line kinkX kinkY e.x e.y),
          DrawCmd.textLabel sym midX midY],
         [⟨{ name := if t.charge < 0 then "Antineutrino Muónico (ν̄μ)" else "Neutrino Muónico (νμ)"
             symbol := sym, particleType := "Neutrino", charge := 0, momentum := 0
             origin := ⟨kinkX / w, kinkY / h⟩, type := .straight, color := "#ffffff", width := 0.5
             description := some "Leptón neutro, sin carga, interacción mínima, no deja trayectoria visible" },
           midX, midY, sym⟩])
      | none => ([], [])
    else ([], [])
  let muonLabel : List DrawCmd × List LabelPosition × ℕ :=
    if identified = false ∧ showForm = true then
      let c := counter + 1
      ([DrawCmd.numberBadge ((numMap c).getD c) mdX mdY], [], c)
    else if identified = true then
      let sym := if t.charge < 0 then "μ⁻" else "μ⁺"
      ([DrawCmd.textLabel sym mdX mdY],
       [⟨{ name := if t.charge < 0 then "Muón (μ⁻)" else "Muón (μ⁺)", symbol := sym
           particleType := "Muón", charge := t.charge, momentum := p.muonMomentum.getD 10
           origin := ⟨0, 0⟩, type := .curved, color := "#4dabf7", width := 2
           description := some "Leptón pesado, interacción mínima, trayectoria curva larga" },
         mdX, mdY, sym⟩], counter)
    else ([], [], counter)
  let lepton : List DrawCmd × List LabelPosition × ℕ :=
    match p.leptonAngle, p.muonCharge with
    | some la, some mc =>
      let isElectron := mc < 0
      let leptonColor := if identified then (if isElectron then "#ffd43b" else "#ff8787")
        else "#ffffff"
      let leptonSymbol := if isElectron then "e⁻" else "e⁺"
      let leptonRadius := 0.08 * min w h
      let handed : ℝ := if isElectron then -1 else 1
      let scx := mdX - Real.cos la * leptonRadius
      let scy := mdY - Real.sin la * leptonRadius
      let spiralCmd := DrawCmd.stroke leptonColor 1.5 ambDash ambAlpha
        (PathSpec.spiralArc scx scy leptonRadius la 3 handed true)
      let badge : List DrawCmd × List LabelPosition × ℕ :=
        if identified = false ∧ showForm = true then
          let c := muonLabel.2.2 + 1
          ([DrawCmd.numberBadge ((numMap c).getD c) scx scy], [], c)
        else if identified = true then
          ([DrawCmd.textLabel leptonSymbol scx scy],
           [⟨{ name := if isElectron then "Electrón (e⁻)" else "Positrón (e⁺)"
               symbol := leptonSymbol
               particleType := if isElectron then "Electrón" else "Positrón"
               charge := if isElectron then -1 else 1, momentum := 2.5
               origin := ⟨0, 0⟩, type := .spiral
               color := if isElectron then "#ffd43b" else "#ff8787", width := 1.5
               description := some (if isElectron then
                 "Leptón ligero, pierde energía rápidamente, forma espiral cerrada"
                 else "Antipartícula del electrón, forma espiral cerrada") },
             scx, scy, leptonSymbol⟩], muonLabel.2.2)
        else ([], [], muonLabel.2.2)
      let muonNus : List DrawCmd × List LabelPosition :=
        if identified = true ∧ p.muonNeutrino1Angle.isSome ∧ p.muonNeutrino2Angle.isSome then
          let a1 := (p.muonNeutrino1Angle.getD 0)
          let a2 := (p.muonNeutrino2Angle.getD 0)
          let e1 := getLineCanvasIntersection mdX mdY a1 w h
          let e2 := getLineCanvasIntersection mdX mdY a2 w h
          let m1X := (mdX + e1.x) / 2
          let m1Y := (mdY + e1.y) / 2
          let m2X := (mdX + e2.x) / 2
          let m2Y := (mdY + e2.y) / 2
          let s1 := if mc < 0 then "ν̄e" else "νe"
          let s2 := if mc < 0 then "νμ" else "ν̄μ"
          ([DrawCmd.stroke "#ffffff" 0.5 [2, 4] 0.8 (PathSpec.line mdX mdY e1.x e1.y),
            DrawCmd.textLabel s1 m1X m1Y,
            DrawCmd.stroke "#ffffff" 0.5 [2, 4] 0.8 (PathSpec.line mdX mdY e2.x e2.y),
            DrawCmd.textLabel s2 m2X m2Y],
           [⟨{ name := if mc < 0 then "Antineutrino Electrónico (ν̄e)" else "Neutrino Electrónico (νe)"
               symbol := s1, particleType := "Neutrino", charge := 0, momentum := 0
               origin := ⟨mdX / w, mdY / h⟩, type := .straight, color := "#ffffff", width := 0.5
               description := some "Leptón neutro, sin carga, interacción mínima, no deja trayectoria visible" },
             m1X, m1Y, s1⟩,
            ⟨{ name := if mc < 0 then "Neutrino Muónico (νμ)" else "Antineutrino Muónico (ν̄μ)"
               symbol := s2, particleType := "Neutrino", charge := 0, momentum := 0
               origin := ⟨mdX / w, mdY / h⟩, type := .straight, color := "#ffffff", width := 0.5
               description := some "Leptón neutro, sin carga, interacción mínima, no deja trayectoria visible" },
             m2X, m2Y, s2⟩])
        else ([], [])
      (spiralCmd :: (badge.1 ++ muonNus.1), badge.2.1 ++ muonNus.2, badge.2.2)
    | _, _ => ([], [], muonLabel.2.2)
  (arcCmd :: (pionNu.1 ++ muonLabel.1 ++ lepton.1),
   pionNu.2 ++ muonLabel.2.1 ++ lepton.2.1, lepton.2.2)

/-- One step of the `forEach` over decay products: append one product's
commands and labels to the accumulator and advance the counter. -/
def drawKinkStep (t : Track) (w h kinkX kinkY : ℝ) (identified showForm : Bool)
    (numMap : ℕ → Option ℕ) (ambDash : List ℕ) (ambAlpha : ℝ)
    (acc : List DrawCmd × List LabelPosition × ℕ) (p : DecayProduct) :
    List DrawCmd × List LabelPosition × ℕ :=
  let one := drawKinkProduct t p w h kinkX kinkY identified showForm numMap
    ambDash ambAlpha acc.2.2
  (acc.1 ++ one.1, acc.2.1 ++ one.2.1, one.2.2)

/-- `drawDecayKink`: requires both a decay point and decay products; the
kink is anchored at the exact arc end of the parent track, and each
product is processed in order, threading the numbering counter. -/
def drawDecayKink (t : Track) (w h : ℝ) (identified showForm : Bool)
    (numMap : ℕ → Option ℕ) (ambDash : List ℕ) (ambAlpha : ℝ) (counter : ℕ) :
    List DrawCmd × List LabelPosition × ℕ :=
  match t.decayPoint, t.decayProducts with
  | some _, some products =>
    let r := (t.radius.getD 0.2) * min w h
    let a := t.angle.getD 0
    let ea := a + (t.length.getD 0.3) * π * 2
    let kinkX := t.origin.x * w - Real.cos a * r + Real.cos ea * r
    let kinkY := t.origin.y * h - Real.sin a * r + Real.sin ea * r
    products.foldl (drawKinkStep t w h kinkX kinkY identified showForm numMap
      ambDash ambAlpha) ([], [], counter)
  | _, _ => ([], [], counter)

/-- `drawTrack`: emits the main shape stroke, the decay kink, and either
the identified-mode symbol label (also recorded as a label position) or
the pre-reveal number badge; neutral tracks are hidden pre-reveal unless
the form is shown and the track decays, in which case they are drawn as a
faint gray dashed curve. -/
def drawTrack (t : Track) (w h : ℝ) (highlight identified showForm : Bool)
    (numMap : ℕ → Option ℕ) (counter : ℕ) : List DrawCmd × List LabelPosition × ℕ :=
  let trackColor := if identified then t.color else "#ffffff"
  if identified = false ∧ t.charge = 0 ∧ ¬(showForm = true ∧ t.decayPoint.isSome = true) then
    ([], [], counter)
  else
    let lw0 := if highlight then t.width * 1.5 else t.width
    let alpha0 : ℝ := if highlight then 1 else 0.8
    let neutralStyled := t.charge = 0 ∧
      (identified = true ∨ (showForm = true ∧ t.decayPoint.isSome = true))
    let color := if neutralStyled then (if identified then "#666666" else "#888888")
      else trackColor
    let lw := if neutralStyled then max 0.5 (t.width * 0.7) else lw0
    let dash : List ℕ := if neutralStyled then [2, 4] else []
    let alpha : ℝ := if neutralStyled then (if identified then 0.6 else 0.3) else alpha0
    let mainCmd := DrawCmd.stroke color lw dash alpha (mainTrackPath t w h)
    let kink :=
      if t.decayPoint.isSome then
        drawDecayKink t w h identified showForm numMap dash alpha counter
      else ([], [], counter)
    let labelPart : List DrawCmd × List LabelPosition :=
      if identified = true then
        let lp := if t.charge = 0 then getTrackMidPoint t w h else getTrackEndPoint t w h
        ([DrawCmd.textLabel t.symbol lp.x lp.y], [⟨t, lp.x, lp.y, t.symbol⟩])
      else if t.trackNumber.isSome ∧ showForm = true then
        let lp := if t.charge = 0 then
            (match t.decayPoint with
             | some dp => Pt.mk (dp.x * w) (dp.y * h)
             | none => getTrackMidPoint t w h)
          else getTrackEndPoint t w h
        ([DrawCmd.numberBadge ((numMap (t.trackNumber.getD 0)).getD (t.trackNumber.getD 0))
            lp.x lp.y], [])
      else ([], [])
    (mainCmd :: (kink.1 ++ labelPart.1), kink.2.1 ++ labelPart.2, kink.2.2)

/-! ## Helper lemmas -/

/-- For a vector with positive x-component, `cos(atan2 y x) · ‖(x,y)‖ = x`. -/
theorem cos_atan2_mul_sqrt (y x : ℝ) (hx : 0 < x) :
    Real.cos (atan2 y x) * Real.sqrt (x ^ 2 + y ^ 2) = x := by
  have hz : (⟨x, y⟩ : ℂ) ≠ 0 := by
    simp only [Ne, Complex.ext_iff, Complex.zero_re, Complex.zero_im, not_and]
    intro h
    exact absurd h (ne_of_gt hx)
  rw [atan2, Complex.cos_arg hz]
  have habs : Complex.abs ⟨x, y⟩ = Real.sqrt (x ^ 2 + y ^ 2) := by
    rw [Complex.abs_apply, Complex.normSq_mk]
    ring_nf
  rw [habs]
  have hpos : 0 < Real.sqrt (x ^ 2 + y ^ 2) := by
    apply Real.sqrt_pos.mpr
    positivity
  field_simp

/-- For a vector with positive x-component, `sin(atan2 y x) · ‖(x,y)‖ = y`. -/
theorem sin_atan2_mul_sqrt (y x : ℝ) (hx : 0 < x) :
    Real.sin (atan2 y x) * Real.sqrt (x ^ 2 + y ^ 2) = y := by
  rw [atan2, Complex.sin_arg]
  have habs : Complex.abs ⟨x, y⟩ = Real.sqrt (x ^ 2 + y ^ 2) := by
    rw [Complex.abs_apply, Complex.normSq_mk]
    ring_nf
  rw [habs]
  have hpos : 0 < Real.sqrt (x ^ 2 + y ^ 2) := by
    apply Real.sqrt_pos.mpr
    positivity
  field_simp

/-- `atan2 0 x = 0` for positive `x`. -/
theorem atan2_zero_of_pos (x : ℝ) (hx : 0 < x) : atan2 0 x = 0 := by
  rw [atan2]
  have hmk : (⟨x, 0⟩ : ℂ) = ((x : ℝ) : ℂ) := by
    simp [Complex.ext_iff]
  rw [hmk]
  exact Complex.arg_ofReal_of_nonneg hx.le

/-! ## Claim C9 -/

/-- Characterization of the pion charge-selection rule on the three
charges. -/
theorem pionChargeOf_eq_iff (r : ℝ) :
    (pionChargeOf r = -1 ↔ r < 0.33) ∧
    (pionChargeOf r = 1 ↔ (¬ r < 0.33 ∧ r < 0.66)) ∧
    (pionChargeOf r = 0 ↔ (¬ r < 0.33 ∧ ¬ r < 0.66)) := by
  unfold pionChargeOf
  by_cases h1 : r < 0.33
  · simp [h1]
  · by_cases h2 : r < 0.66 <;> simp [h1, h2]

/-- Claim C9 counterexample: the preimage of charge −1 (the charge of π⁻)
under the selection rule, within the unit interval of `Math.random`, is
`[0, 0.33)`, whose Lebesgue measure `0.33` is not `1/3`. -/
theorem pion_charge_not_uniform_third :
    MeasureTheory.volume {r : ℝ | (0 ≤ r ∧ r < 1) ∧ pionChargeOf r = -1} ≠
      ENNReal.ofReal (1 / 3) := by
  have hset : {r : ℝ | (0 ≤ r ∧ r < 1) ∧ pionChargeOf r = -1} = Set.Ico (0 : ℝ) 0.33 := by
    ext r
    simp only [Set.mem_setOf_eq, Set.mem_Ico]
    constructor
    · rintro ⟨⟨h0, _⟩, hc⟩
      exact ⟨h0, ((pionChargeOf_eq_iff r).1).mp hc⟩
    · rintro ⟨h0, hlt⟩
      refine ⟨⟨h0, lt_trans hlt (by norm_num)⟩, ((pionChargeOf_eq_iff r).1).mpr hlt⟩
  rw [hset, Real.volume_Ico]
  rw [Ne, ENNReal.ofReal_eq_ofReal_iff (by norm_num) (by norm_num)]
  norm_num

/-- Claim C9 (amended): the selection rule splits the unit interval into
preimages of measures `0.33`, `0.33` and `0.34` for π⁻, π⁺ and π⁰
respectively — approximately, but not exactly, uniform. -/
theorem pion_charge_preimage_measures :
    MeasureTheory.volume {r : ℝ | (0 ≤ r ∧ r < 1) ∧ pionChargeOf r = -1} =
        ENNReal.ofReal 0.33 ∧
    MeasureTheory.volume {r : ℝ | (0 ≤ r ∧ r < 1) ∧ pionChargeOf r = 1} =
        ENNReal.ofReal 0.33 ∧
    MeasureTheory.volume {r : ℝ | (0 ≤ r ∧ r < 1) ∧ pionChargeOf r = 0} =
        ENNReal.ofReal 0.34 := by
  have hm : {r : ℝ | (0 ≤ r ∧ r < 1) ∧ pionChargeOf r = -1} = Set.Ico (0 : ℝ) 0.33 := by
    ext r
    simp only [Set.mem_setOf_eq, Set.mem_Ico]
    constructor
    · rintro ⟨⟨h0, _⟩, hc⟩
      exact ⟨h0, ((pionChargeOf_eq_iff r).1).mp hc⟩
    · rintro ⟨h0, hlt⟩
      exact ⟨⟨h0, lt_trans hlt (by norm_num)⟩, ((pionChargeOf_eq_iff r).1).mpr hlt⟩
  have hp : {r : ℝ | (0 ≤ r ∧ r < 1) ∧ pionChargeOf r = 1} = Set.Ico (0.33 : ℝ) 0.66 := by
    ext r
    simp only [Set.mem_setOf_eq, Set.mem_Ico]
    constructor
    · rintro ⟨⟨h0, _⟩, hc⟩
      obtain ⟨h1, h2⟩ := ((pionChargeOf_eq_iff r).2.1).mp hc
      exact ⟨le_of_not_lt h1, h2⟩
    · rintro ⟨h0, hlt⟩
      refine ⟨⟨le_trans (by norm_num) h0, lt_trans hlt (by norm_num)⟩, ?_⟩
      exact ((pionChargeOf_eq_iff r).2.1).mpr ⟨not_lt.mpr h0, hlt⟩
  have hz : {r : ℝ | (0 ≤ r ∧ r < 1) ∧ pionChargeOf r = 0} = Set.Ico (0.66 : ℝ) 1 := by
    ext r
    simp only [Set.mem_setOf_eq, Set.mem_Ico]
    constructor
    · rintro ⟨⟨h0, h1⟩, hc⟩
      obtain ⟨hA, hB⟩ := ((pionChargeOf_eq_iff r).2.2).mp hc
      exact ⟨le_of_not_lt hB, h1⟩
    · rintro ⟨h0, hlt⟩
      refine ⟨⟨le_trans (by norm_num) h0, hlt⟩, ?_⟩
      refine ((pionChargeOf_eq_iff r).2.2).mpr ⟨?_, not_lt.mpr h0⟩
      intro hlt2
      have h36 : (0.33 : ℝ) < 0.66 := by norm_num
      linarith
  refine ⟨?_, ?_, ?_⟩
  · rw [hm, Real.volume_Ico]
    norm_num
  · rw [hp, Real.volume_Ico]
    norm_num
  · rw [hz, Real.volume_Ico]
    norm_num

/-! ## Claim C1 -/

/-- Claim C1 (amended): at the charged-pion decay vertices — the standalone
pion scenario and the nested pion decays of the proton-proton scenario —
the muon and neutrino momentum vectors sum exactly to the pion's momentum
vector, for every draw (the neutrino is constructed by vector subtraction).
The other vertices (neutron decay, muon decay, π⁰ decay, photon pair
production) sample child momenta independently and do not enforce
conservation. -/
theorem pion_decay_vertices_conserve_momentum :
    ∀ (pM muFr muSp : ℝ) (q : ℤ) (a m lenB mFr mSp : ℝ) (nP : ℕ),
      ((muonMomentumVecPS pM muFr muSp).x + (neutrinoMomentumVecPS pM muFr muSp).x =
          (pionMomentumVecPS pM).x ∧
        (muonMomentumVecPS pM muFr muSp).y + (neutrinoMomentumVecPS pM muFr muSp).y =
          (pionMomentumVecPS pM).y) ∧
      ((ppMuonMomentumVec q a m lenB mFr mSp nP).x +
          (ppNeutrinoMomentumVec q a m lenB mFr mSp nP).x =
          (ppPionMomentumVec q a m lenB nP).x ∧
        (ppMuonMomentumVec q a m lenB mFr mSp nP).y +
          (ppNeutrinoMomentumVec q a m lenB mFr mSp nP).y =
          (ppPionMomentumVec q a m lenB nP).y) := by
  intro pM muFr muSp q a m lenB mFr mSp nP
  refine ⟨⟨?_, ?_⟩, ?_, ?_⟩ <;>
    simp only [neutrinoMomentumVecPS, ppNeutrinoMomentumVec] <;> ring

/-- Claim C1 counterexample: a neutron-decay event with decay point
`(0.5, 0.5)` (draws `dpX = 0.5`, `dpDY = 0`), neutron momentum `40`, proton
fraction `0.5`, electron fraction `0.2` and zero angular spreads.  The
source computes no neutrino momentum at all (the neutrino decay product
carries only a direction), and the x-components of the child momentum
vectors sum to `28 ≠ 40`: the vector sum of child momenta does not equal
the parent's momentum vector at this decay vertex. -/
theorem neutron_decay_vertex_violates_conservation :
    (protonMomentumVecN 40 0.5 0.5 0 0).x + (electronMomentumVecN 40 0.2 0.5 0 0).x ≠
      (neutronMomentumVec 40 0.5 0).x := by
  have hdy : ((neutronScenDecayPoint 0.5 0).y - 0.5 : ℝ) = 0 := by
    simp [neutronScenDecayPoint]
  have hdx : ((neutronScenDecayPoint 0.5 0).x - 0 : ℝ) = 0.5 := by
    simp [neutronScenDecayPoint]
  have hdir : neutronDirection 0.5 0 = 0 := by
    rw [neutronDirection, hdy, hdx]
    exact atan2_zero_of_pos 0.5 (by norm_num)
  simp only [protonMomentumVecN, electronMomentumVecN, neutronMomentumVec,
    protonMomentumN, electronMomentumN, protonDirectionN, electronDirectionN, hdir,
    add_zero, Real.cos_zero]
  norm_num

/-! ## Claim C2 -/

/-- A straight track from `(0, 0.5)` aimed at `(X, Y)` by `atan2`, with
length the euclidean distance, ends exactly at `(X, Y)` (needs `0 < X`). -/
theorem straight_atan2_end (X Y : ℝ) (hx : 0 < X) :
    straightEndFrom ⟨0, 0.5⟩ (atan2 (Y - 0.5) (X - 0))
      (Real.sqrt ((X - 0) ^ 2 + (Y - 0.5) ^ 2)) = ⟨X, Y⟩ := by
  have h1 := cos_atan2_mul_sqrt (Y - 0.5) (X - 0) (by linarith)
  have h2 := sin_atan2_mul_sqrt (Y - 0.5) (X - 0) (by linarith)
  unfold straightEndFrom
  simp only [Pt.mk.injEq]
  constructor <;> linarith

/-- The incoming-pion track length `√((0.5−0)² + (0.5−0.5)²)` is `0.5`. -/
theorem pionLengthPS_eq : pionLengthPS = 0.5 := by
  unfold pionLengthPS
  rw [show ((0.5 - 0 : ℝ) ^ 2 + (0.5 - 0.5) ^ 2) = 0.5 ^ 2 by norm_num,
    Real.sqrt_sq (by norm_num)]

/-- Claim C2: every decay-point-carrying track produced by
`generateParticleTracks` — the photon, charged-pion, π⁰, muon and neutron
scenario tracks and the proton-proton pion and π⁰ tracks — stores exactly
the end point of its own shape locus at its stated parameters
(`origin + length·(cos angle, sin angle)` for straight tracks,
`center + radius·(cos(angle + length·2π), sin(angle + length·2π))` with
`center = origin − radius·(cos angle, sin angle)` for arcs), and the two
nested muon decay points equal the arc end points of the muon arcs
anchored at their parents' decay points. -/
theorem decay_points_on_own_shape_locus
    (ppX ppDY energy : ℝ) (hpp : 0 < ppX)
    (q : ℤ) (pM muFr muSp muL muRadB lSp n1Sp n2Sp : ℝ)
    (minus : Bool) (dpX dpDY muM lepSp mn1 mn2 : ℝ) (hdp : 0 < dpX)
    (ndpX ndpDY nM nuSp : ℝ) (hnp : 0 < ndpX)
    (a m radB lenB mFr mSp pmuL pmRadB plSp pn1 pn2 : ℝ) (nP tn : ℕ) (sp pMtot : ℝ) :
    decayConsistent (photonScenPhotonTrack ppX ppDY energy) ∧
    decayConsistent (chargedPionTrack q pM muFr muSp muL muRadB lSp n1Sp n2Sp) ∧
    decayConsistent (pionZeroTrackPS pM) ∧
    decayConsistent (muonScenMuonTrack minus dpX dpDY muM lepSp mn1 mn2) ∧
    decayConsistent (neutronScenNeutronTrack ndpX ndpDY nM nuSp) ∧
    decayConsistent (ppPionTrack q a m radB lenB mFr mSp pmuL pmRadB plSp pn1 pn2 nP tn) ∧
    decayConsistent (ppPi0Track pMtot sp tn) ∧
    muonDecayPointPS q pM muFr muSp muL muRadB =
      arcEndFrom ⟨0.5, 0.5⟩ (muonRadiusPS pM muFr muRadB) (muonTrackAnglePS q muSp) muL ∧
    ppMuonDecayPoint q a m radB lenB mFr mSp pmuL pmRadB nP =
      arcEndFrom (ppPionDecayPoint a m radB lenB nP) (ppMuonRadius m mFr pmRadB)
        (ppMuonAngle q a lenB mSp nP) pmuL := by
  refine ⟨?_, ?_, ?_, ?_, ?_, ?_, ?_, ?_, ?_⟩
  · -- photon scenario
    intro dp hdp'
    have hval : dp = pairProductionPoint ppX ppDY := by
      simpa [photonScenPhotonTrack] using hdp'.symm
    show dp = straightEndN (photonScenPhotonTrack ppX ppDY energy)
    rw [hval]
    unfold straightEndN photonScenPhotonTrack photonDirection photonTrackLength
    simp only [Option.getD_some]
    exact (straight_atan2_end (pairProductionPoint ppX ppDY).x
      (pairProductionPoint ppX ppDY).y (by simpa [pairProductionPoint] using hpp)).symm
  · -- charged-pion scenario
    intro dp hdp'
    have hval : dp = (⟨0.5, 0.5⟩ : Pt) := by
      simpa [chargedPionTrack] using hdp'.symm
    show dp = straightEndN (chargedPionTrack q pM muFr muSp muL muRadB lSp n1Sp n2Sp)
    rw [hval]
    unfold straightEndN chargedPionTrack straightEndFrom pionDirectionPS
    simp only [Option.getD_some, pionLengthPS_eq, Pt.mk.injEq]
    constructor <;> simp
  · -- π⁰ branch of the pion scenario
    intro dp hdp'
    have hval : dp = (⟨0.5, 0.5⟩ : Pt) := by
      simpa [pionZeroTrackPS] using hdp'.symm
    show dp = straightEndN (pionZeroTrackPS pM)
    rw [hval]
    unfold straightEndN pionZeroTrackPS straightEndFrom pionDirectionPS
    simp only [Option.getD_some, pionLengthPS_eq, Pt.mk.injEq]
    constructor <;> simp
  · -- muon scenario
    intro dp hdp'
    have hval : dp = muonScenDecayPoint dpX dpDY := by
      simpa [muonScenMuonTrack] using hdp'.symm
    show dp = straightEndN (muonScenMuonTrack minus dpX dpDY muM lepSp mn1 mn2)
    rw [hval]
    unfold straightEndN muonScenMuonTrack muonScenDirection muonScenLength
    simp only [Option.getD_some]
    exact (straight_atan2_end (muonScenDecayPoint dpX dpDY).x
      (muonScenDecayPoint dpX dpDY).y (by simpa [muonScenDecayPoint] using hdp)).symm
  · -- neutron scenario
    intro dp hdp'
    have hval : dp = neutronScenDecayPoint ndpX ndpDY := by
      simpa [neutronScenNeutronTrack] using hdp'.symm
    show dp = straightEndN (neutronScenNeutronTrack ndpX ndpDY nM nuSp)
    rw [hval]
    unfold straightEndN neutronScenNeutronTrack neutronDirection
    simp only [Option.getD_some]
    exact (straight_atan2_end (neutronScenDecayPoint ndpX ndpDY).x
      (neutronScenDecayPoint ndpX ndpDY).y (by simpa [neutronScenDecayPoint] using hnp)).symm
  · -- proton-proton pion (curved)
    intro dp hdp'
    have hval : dp = ppPionDecayPoint a m radB lenB nP := by
      simpa [ppPionTrack] using hdp'.symm
    show dp = arcEndN (ppPionTrack q a m radB lenB mFr mSp pmuL pmRadB plSp pn1 pn2 nP tn)
    rw [hval]
    unfold arcEndN ppPionTrack arcEndFrom ppPionDecayPoint ppEndAngle
    simp only [Option.getD_some]
  · -- proton-proton π⁰
    intro dp hdp'
    have hval : dp = ppPi0DecayPoint sp := by
      simpa [ppPi0Track] using hdp'.symm
    show dp = straightEndN (ppPi0Track pMtot sp tn)
    rw [hval]
    unfold straightEndN ppPi0Track straightEndFrom ppPi0DecayPoint
    simp only [Option.getD_some]
  · -- nested muon decay point, pion scenario
    unfold muonDecayPointPS muonCenterPS muonEndAnglePS arcEndFrom
    simp only [Pt.mk.injEq]
  · -- nested muon decay point, proton-proton scenario
    unfold ppMuonDecayPoint ppMuonEndAngle arcEndFrom
    simp only [Pt.mk.injEq]

/-- Witness for Claim C2 at concrete draws (`ppX = dpX = ndpX = 0.5`). -/
theorem decay_points_on_own_shape_locus_witness :
    decayConsistent (photonScenPhotonTrack 0.5 0 30) ∧
    decayConsistent (neutronScenNeutronTrack 0.5 0 40 0) := by
  have h := decay_points_on_own_shape_locus 0.5 0 30 (by norm_num)
    1 30 0.5 0 0.4 0.2 0.5 0.5 0
    true 0.5 0 30 0.5 0.5 0 (by norm_num)
    0.5 0 40 0 (by norm_num)
    0.3 12 0.2 0.4 0.5 0 0.4 0.2 0.5 0.5 0 1 4 0 50
  exact ⟨h.1, h.2.2.2.2.1⟩

/-! ## Claim C3 -/

/-- Claim C3 (amended): for every event whose true neutrino count is at
least 1 (every proton-proton, neutron, muon and charged-pion event), if all
`N` identifiable particles are correctly identified and the neutrino guess
equals the true count, the score is exactly 100; and with no
identifications and an empty guess the score is 0 for every event.  (For
the zero-neutrino events — photon pair production and the π⁰ scenario —
the all-correct score is `100·N/(N+2) < 100`, see the counterexample.) -/
theorem score_all_correct_and_empty :
    ∀ (tracks : List Track) (idents : List (ℕ × String)) (rev : ℕ → Option ℕ)
      (pmap : ℕ → Option String),
      (1 ≤ calculateTotalParticles tracks → 1 ≤ calculateNeutrinoCount tracks →
        countCorrect idents rev pmap = calculateTotalParticles tracks →
        calculateScore tracks idents rev pmap (some (calculateNeutrinoCount tracks)) = 100) ∧
      calculateScore tracks [] rev pmap none = 0 := by
  intro tracks idents rev pmap
  constructor
  · intro hN hR hk
    have hN0 : ¬ calculateTotalParticles tracks = 0 := by omega
    have hRpos : 0 < calculateNeutrinoCount tracks := by omega
    simp only [calculateScore, hk, if_neg hN0, eq_self_iff_true, ite_true, if_pos hRpos]
    have hRne : (calculateNeutrinoCount tracks : ℝ) ≠ 0 := Nat.cast_ne_zero.mpr (by omega)
    rw [div_mul_cancel₀ _ hRne]
    have h1 : (1 : ℝ) ≤ (calculateTotalParticles tracks : ℝ) := by exact_mod_cast hN
    have hfrac : (0 : ℝ) < 100 / ((calculateTotalParticles tracks : ℝ) + 2) := by positivity
    have h2 : (0 : ℝ) ≤ ((calculateTotalParticles tracks : ℝ) - 1) *
        (100 / ((calculateTotalParticles tracks : ℝ) + 2)) :=
      mul_nonneg (by linarith) hfrac.le
    have hE : (100 : ℝ) ≤ (calculateTotalParticles tracks : ℝ) *
        (100 / ((calculateTotalParticles tracks : ℝ) + 2)) +
        (100 - 100 / ((calculateTotalParticles tracks : ℝ) + 2)) := by
      nlinarith [h2]
    rw [max_eq_right (by linarith), min_eq_left hE]
  · by_cases hN0 : calculateTotalParticles tracks = 0
    · simp [calculateScore, hN0]
    · simp only [calculateScore, if_neg hN0, countCorrect, List.countP_nil,
        Nat.cast_zero, zero_mul, mul_zero, zero_add]
      split_ifs <;> norm_num

/-- Witness for Claim C3 at a concrete neutron-decay event: one neutrino,
one identifiable numbered particle in the modelled list, full marks. -/
theorem score_all_correct_and_empty_witness :
    calculateScore [neutronScenNeutronTrack 0.5 0 40 0] [(3, "n")] (fun _ => none)
      (fun n => lookupKey (getParticleMap [neutronScenNeutronTrack 0.5 0 40 0]) n)
      (some (calculateNeutrinoCount [neutronScenNeutronTrack 0.5 0 40 0])) = 100 ∧
    calculateScore [neutronScenNeutronTrack 0.5 0 40 0] [] (fun _ => none)
      (fun n => lookupKey (getParticleMap [neutronScenNeutronTrack 0.5 0 40 0]) n)
      none = 0 := by
  have h := score_all_correct_and_empty [neutronScenNeutronTrack 0.5 0 40 0] [(3, "n")]
    (fun _ => none)
    (fun n => lookupKey (getParticleMap [neutronScenNeutronTrack 0.5 0 40 0]) n)
  exact ⟨h.1 (by rfl) (by rfl) (by rfl), h.2⟩

/-- Claim C3 counterexample: the photon pair-production event at draws
`ppX = 0.5, ppDY = 0, energy = 30, …` has `N = 3` identifiable particles
and `0` true neutrinos; identifying all three correctly and guessing the
exact neutrino count `0` yields score `60`, not `100`. -/
theorem score_zero_neutrino_event_not_100 :
    calculateTotalParticles (photonScenarioTracks 0.5 0 30 0.45 0.45 0 1 0.1 3 0.1 3) = 3 ∧
    calculateNeutrinoCount (photonScenarioTracks 0.5 0 30 0.45 0.45 0 1 0.1 3 0.1 3) = 0 ∧
    countCorrect [(1, "e⁻"), (2, "e⁺"), (3, "γ")] (fun s => some s)
      (fun n => lookupKey (getParticleMap
        (photonScenarioTracks 0.5 0 30 0.45 0.45 0 1 0.1 3 0.1 3)) n) = 3 ∧
    calculateScore (photonScenarioTracks 0.5 0 30 0.45 0.45 0 1 0.1 3 0.1 3)
      [(1, "e⁻"), (2, "e⁺"), (3, "γ")] (fun s => some s)
      (fun n => lookupKey (getParticleMap
        (photonScenarioTracks 0.5 0 30 0.45 0.45 0 1 0.1 3 0.1 3)) n)
      (some 0) = 60 ∧
    (60 : ℝ) ≠ 100 := by
  have hN : calculateTotalParticles (photonScenarioTracks 0.5 0 30 0.45 0.45 0 1 0.1 3 0.1 3)
      = 3 := by rfl
  have hR : calculateNeutrinoCount (photonScenarioTracks 0.5 0 30 0.45 0.45 0 1 0.1 3 0.1 3)
      = 0 := by rfl
  have hk : countCorrect [(1, "e⁻"), (2, "e⁺"), (3, "γ")] (fun s => some s)
      (fun n => lookupKey (getParticleMap
        (photonScenarioTracks 0.5 0 30 0.45 0.45 0 1 0.1 3 0.1 3)) n) = 3 := by rfl
  refine ⟨hN, hR, hk, ?_, by norm_num⟩
  simp only [calculateScore, hN, hR, hk]
  norm_num

/-! ## Claim C4 -/

/-- Claim C4: with exactly `k ≤ N` particles correctly identified and a
non-empty neutrino guess different from the true count, the score is
exactly `k·100/(N+2)`. -/
theorem score_k_correct_wrong_neutrino
    (tracks : List Track) (idents : List (ℕ × String)) (rev : ℕ → Option ℕ)
    (pmap : ℕ → Option String) (g : ℕ)
    (hg : g ≠ calculateNeutrinoCount tracks)
    (hk : countCorrect idents rev pmap ≤ calculateTotalParticles tracks) :
    calculateScore tracks idents rev pmap (some g) =
      (countCorrect idents rev pmap : ℝ) *
        (100 / ((calculateTotalParticles tracks : ℝ) + 2)) := by
  by_cases hN0 : calculateTotalParticles tracks = 0
  · have hk0 : countCorrect idents rev pmap = 0 := by omega
    simp [calculateScore, hN0, hk0]
  · simp only [calculateScore, if_neg hN0, if_neg hg, Nat.cast_zero, mul_zero, add_zero]
    have hfrac : (0 : ℝ) < 100 / ((calculateTotalParticles tracks : ℝ) + 2) := by positivity
    have hkk : ((countCorrect idents rev pmap : ℝ)) ≤ (calculateTotalParticles tracks : ℝ) := by
      exact_mod_cast hk
    have hub : (calculateTotalParticles tracks : ℝ) *
        (100 / ((calculateTotalParticles tracks : ℝ) + 2)) ≤ 100 := by
      rw [mul_div_assoc']
      rw [div_le_iff₀ (by positivity)]
      nlinarith [Nat.cast_nonneg (α := ℝ) (calculateTotalParticles tracks)]
    have hle : (countCorrect idents rev pmap : ℝ) *
        (100 / ((calculateTotalParticles tracks : ℝ) + 2)) ≤ 100 :=
      le_trans (mul_le_mul_of_nonneg_right hkk hfrac.le) hub
    have hge : (0 : ℝ) ≤ (countCorrect idents rev pmap : ℝ) *
        (100 / ((calculateTotalParticles tracks : ℝ) + 2)) := by positivity
    split_ifs
    all_goals rw [add_zero, max_eq_right hge, min_eq_right hle]

/-- Witness for Claim C4: the concrete neutron event, no identifications,
guess `0 ≠ 1`; the score is `0·(100/(1+2))`. -/
theorem score_k_correct_wrong_neutrino_witness :
    calculateScore [neutronScenNeutronTrack 0.5 0 40 0] [] (fun _ => none)
      (fun n => lookupKey (getParticleMap [neutronScenNeutronTrack 0.5 0 40 0]) n)
      (some 0) =
      ((countCorrect [] (fun _ => none)
        (fun n => lookupKey (getParticleMap [neutronScenNeutronTrack 0.5 0 40 0]) n)) : ℝ) *
        (100 / (((calculateTotalParticles [neutronScenNeutronTrack 0.5 0 40 0]) : ℝ) + 2)) := by
  exact score_k_correct_wrong_neutrino [neutronScenNeutronTrack 0.5 0 40 0] []
    (fun _ => none)
    (fun n => lookupKey (getParticleMap [neutronScenNeutronTrack 0.5 0 40 0]) n)
    0 (by decide) (by decide)

/-! ## Claim C5 -/

/-- A single swap of two in-range indices preserves being a bijection from
the index range onto the value set. -/
theorem swapFn_bijOn (f : ℕ → ℕ) (a b m : ℕ) (S : Set ℕ) (ha : a < m) (hb : b < m)
    (hf : Set.BijOn f {x | x < m} S) : Set.BijOn (swapFn f a b) {x | x < m} S := by
  have hcomp : swapFn f a b = f ∘ (Equiv.swap a b) := by
    funext k
    simp only [swapFn, Function.comp_apply, Equiv.swap_apply_def]
    by_cases hka : k = a
    · simp only [if_pos hka]
    · simp only [if_neg hka]
      by_cases hkb : k = b
      · simp only [if_pos hkb]
      · simp only [if_neg hkb]
  rw [hcomp]
  refine Set.BijOn.comp hf ?_
  have hmaps : Set.MapsTo (Equiv.swap a b) {x | x < m} {x | x < m} := by
    intro k hk
    simp only [Set.mem_setOf_eq] at hk ⊢
    rw [Equiv.swap_apply_def]
    split_ifs <;> assumption
  refine ⟨hmaps, (Equiv.swap a b).injective.injOn, ?_⟩
  intro s hs
  refine ⟨Equiv.swap a b s, hmaps hs, ?_⟩
  simp

/-- The Fisher-Yates loop preserves being a bijection from the index range
onto the value set, provided every processed index and every draw is in
range. -/
theorem fyFrom_bijOn (m : ℕ) (S : Set ℕ) (j : ℕ → ℕ) :
    ∀ (i : ℕ) (f : ℕ → ℕ), (∀ k, 1 ≤ k → k ≤ i → k < m ∧ j k < m) →
      Set.BijOn f {x | x < m} S → Set.BijOn (fyFrom j i f) {x | x < m} S := by
  intro i
  induction i with
  | zero => intro f _ hf; exact hf
  | succ n ih =>
    intro f hk hf
    show Set.BijOn (fyFrom j n (swapFn f (n + 1) (j (n + 1)))) {x | x < m} S
    refine ih _ (fun k h1 h2 => hk k h1 (le_trans h2 (Nat.le_succ n))) ?_
    obtain ⟨hkm, hjm⟩ := hk (n + 1) (Nat.succ_le_succ (Nat.zero_le n)) le_rfl
    exact swapFn_bijOn f (n + 1) (j (n + 1)) m S hkm hjm hf

/-- The initial `rest` array `k ↦ k + 2` is a bijection from `[0, N−1)`
onto `[2, N]`. -/
theorem restInitial_bijOn (N : ℕ) :
    Set.BijOn restInitial {x | x < N - 1} (Set.Icc 2 N) := by
  refine ⟨?_, ?_, ?_⟩
  · intro k hk
    simp only [Set.mem_setOf_eq] at hk
    simp only [restInitial, Set.mem_Icc]
    omega
  · intro k _ k' _ h
    simpa [restInitial] using h
  · intro s hs
    simp only [Set.mem_Icc] at hs
    refine ⟨s - 2, ?_, ?_⟩
    · simp only [Set.mem_setOf_eq]
      omega
    · simp only [restInitial]
      omega

/-- The shuffled array is a bijection from `[0, N)` onto `[1, N]`. -/
theorem shuffledFn_bijOn (N : ℕ) (j : ℕ → ℕ)
    (hj : ∀ i, 1 ≤ i → i ≤ N - 2 → j i ≤ i) :
    Set.BijOn (shuffledFn N j) {x | x < N} (Set.Icc 1 N) := by
  have hF : Set.BijOn (fyFrom j (N - 2) restInitial) {x | x < N - 1} (Set.Icc 2 N) := by
    refine fyFrom_bijOn (N - 1) (Set.Icc 2 N) j (N - 2) restInitial ?_ (restInitial_bijOn N)
    intro k h1 h2
    exact ⟨by omega, by have := hj k h1 h2; omega⟩
  refine ⟨?_, ?_, ?_⟩
  · intro i hi
    simp only [Set.mem_setOf_eq] at hi
    by_cases h0 : i = 0
    · simp only [shuffledFn, h0, if_pos rfl, ite_true, Set.mem_Icc]
      omega
    · have hlt : i - 1 < N - 1 := by omega
      have := hF.mapsTo hlt
      simp only [Set.mem_Icc] at this
      simp only [shuffledFn, if_neg h0, Set.mem_Icc]
      omega
  · intro i hi i' hi' h
    simp only [Set.mem_setOf_eq] at hi hi'
    by_cases h0 : i = 0 <;> by_cases h0' : i' = 0
    · omega
    · exfalso
      have hlt : i' - 1 < N - 1 := by omega
      have hmem := hF.mapsTo hlt
      simp only [Set.mem_Icc] at hmem
      simp only [shuffledFn, h0, if_pos rfl, ite_true, if_neg h0'] at h
      omega
    · exfalso
      have hlt : i - 1 < N - 1 := by omega
      have hmem := hF.mapsTo hlt
      simp only [Set.mem_Icc] at hmem
      simp only [shuffledFn, h0', if_pos rfl, ite_true, if_neg h0] at h
      omega
    · have hlt : i - 1 < N - 1 := by omega
      have hlt' : i' - 1 < N - 1 := by omega
      simp only [shuffledFn, if_neg h0, if_neg h0'] at h
      have := hF.injOn hlt hlt' h
      omega
  · intro s hs
    simp only [Set.mem_Icc] at hs
    by_cases hs1 : s = 1
    · refine ⟨0, ?_, ?_⟩
      · simp only [Set.mem_setOf_eq]
        omega
      · simp [shuffledFn, hs1]
    · obtain ⟨k, hk, hks⟩ := hF.surjOn (Set.mem_Icc.mpr ⟨by omega, hs.2⟩)
      simp only [Set.mem_setOf_eq] at hk
      refine ⟨k + 1, by simp only [Set.mem_setOf_eq]; omega, ?_⟩
      simpa [shuffledFn] using hks

/-- Association-list lookup over a mapped range misses every absent key. -/
theorem lookupKey_range_map_none {β : Type} (n : ℕ) (g : ℕ → ℕ) (v : ℕ → β) (s : ℕ)
    (h : ∀ k, k < n → g k ≠ s) :
    lookupKey ((List.range n).map (fun k => (g k, v k))) s = none := by
  induction n with
  | zero => rfl
  | succ n ih =>
    rw [List.range_succ, List.map_append]
    have hres := ih (fun k hk => h k (Nat.lt_succ_of_lt hk))
    have happ : ∀ (l₁ l₂ : List (ℕ × β)), lookupKey l₁ s = none →
        lookupKey (l₁ ++ l₂) s = lookupKey l₂ s := by
      intro l₁
      induction l₁ with
      | nil => intro l₂ _; rfl
      | cons kv rest ihh =>
        intro l₂ hnone
        simp only [lookupKey] at hnone ⊢
        by_cases hkv : s = kv.1
        · rw [if_pos hkv] at hnone
          exact absurd hnone (by simp)
        · rw [if_neg hkv] at hnone ⊢
          exact ihh l₂ hnone
    rw [happ _ _ hres]
    simp only [List.map_cons, List.map_nil, lookupKey]
    rw [if_neg (fun hc => h n (Nat.lt_succ_self n) hc.symm)]

/-- Association-list lookup over a mapped range finds the value at an
injectively mapped key. -/
theorem lookupKey_range_map_inj {β : Type} (n : ℕ) (g : ℕ → ℕ) (v : ℕ → β) (i : ℕ)
    (hi : i < n) (hinj : ∀ a b, a < n → b < n → g a = g b → a = b) :
    lookupKey ((List.range n).map (fun k => (g k, v k))) (g i) = some (v i) := by
  induction n with
  | zero => omega
  | succ n ih =>
    rw [List.range_succ, List.map_append]
    by_cases hlt : i < n
    · have hres := ih hlt (fun a b ha hb => hinj a b (Nat.lt_succ_of_lt ha) (Nat.lt_succ_of_lt hb))
      have happ : ∀ (l₁ l₂ : List (ℕ × β)) (w : β), lookupKey l₁ (g i) = some w →
          lookupKey (l₁ ++ l₂) (g i) = some w := by
        intro l₁
        induction l₁ with
        | nil => intro l₂ w hsome; exact absurd hsome (by simp [lookupKey])
        | cons kv rest ihh =>
          intro l₂ w hsome
          simp only [lookupKey] at hsome ⊢
          by_cases hkv : g i = kv.1
          · rwa [if_pos hkv] at hsome ⊢
          · rw [if_neg hkv] at hsome ⊢
            exact ihh l₂ w hsome
      exact happ _ _ _ hres
    · have hieq : i = n := by omega
      have hnone : lookupKey ((List.range n).map (fun k => (g k, v k))) (g i) = none := by
        refine lookupKey_range_map_none n g v (g i) ?_
        intro k hk hc
        have := hinj k i (Nat.lt_succ_of_lt hk) hi hc
        omega
      have happ : ∀ (l₁ l₂ : List (ℕ × β)), lookupKey l₁ (g i) = none →
          lookupKey (l₁ ++ l₂) (g i) = lookupKey l₂ (g i) := by
        intro l₁
        induction l₁ with
        | nil => intro l₂ _; rfl
        | cons kv rest ihh =>
          intro l₂ hnone'
          simp only [lookupKey] at hnone' ⊢
          by_cases hkv : g i = kv.1
          · rw [if_pos hkv] at hnone'
            exact absurd hnone' (by simp)
          · rw [if_neg hkv] at hnone' ⊢
            exact ihh l₂ hnone'
      rw [happ _ _ hnone]
      simp only [List.map_cons, List.map_nil, lookupKey, hieq, if_pos rfl, ite_true]

/-- Claim C5: for every `N ≥ 1` and every family of in-range Fisher-Yates
draws, the number mapping built by `generateNewEvent` is a bijection of
`{1..N}` onto itself, the reverse record is its exact inverse on `{1..N}`,
and index 1 (the primary incoming particle) is pinned: `mapping 1 = 1`. -/
theorem number_mapping_bijection (N : ℕ) (j : ℕ → ℕ) (hN : 1 ≤ N)
    (hj : ∀ i, 1 ≤ i → i ≤ N - 2 → j i ≤ i) :
    Set.BijOn (numberMapping N j) (Set.Icc 1 N) (Set.Icc 1 N) ∧
    (∀ o ∈ Set.Icc 1 N, reverseMapping N j (numberMapping N j o) = o) ∧
    numberMapping N j 1 = 1 := by
  have hshuf := shuffledFn_bijOn N j hj
  refine ⟨⟨?_, ?_, ?_⟩, ?_, ?_⟩
  · intro o ho
    simp only [Set.mem_Icc] at ho
    exact hshuf.mapsTo (by simp only [Set.mem_setOf_eq]; omega)
  · intro o ho o' ho' h
    simp only [Set.mem_Icc] at ho ho'
    have := hshuf.injOn (show o - 1 ∈ {x | x < N} by simp only [Set.mem_setOf_eq]; omega)
      (show o' - 1 ∈ {x | x < N} by simp only [Set.mem_setOf_eq]; omega) h
    omega
  · intro s hs
    obtain ⟨k, hk, hks⟩ := hshuf.surjOn hs
    simp only [Set.mem_setOf_eq] at hk
    refine ⟨k + 1, Set.mem_Icc.mpr ⟨by omega, by omega⟩, ?_⟩
    simpa [numberMapping] using hks
  · intro o ho
    simp only [Set.mem_Icc] at ho
    have hinj : ∀ a b, a < N → b < N → shuffledFn N j a = shuffledFn N j b → a = b := by
      intro a b ha hb h
      exact hshuf.injOn (by simpa using ha) (by simpa using hb) h
    have hlk := lookupKey_range_map_inj N (shuffledFn N j) (fun i => i + 1) (o - 1)
      (by omega) hinj
    unfold reverseMapping reversePairs numberMapping
    rw [hlk]
    simp only [Option.getD_some]
    omega
  · simp [numberMapping, shuffledFn]

/-- Witness for Claim C5 at `N = 3` with all draws 0 (the loop swaps
indices 1 and 0 of the rest array, giving shuffled numbering `[1, 3, 2]`). -/
theorem number_mapping_bijection_witness :
    Set.BijOn (numberMapping 3 (fun _ => 0)) (Set.Icc 1 3) (Set.Icc 1 3) ∧
    (∀ o ∈ Set.Icc 1 3, reverseMapping 3 (fun _ => 0) (numberMapping 3 (fun _ => 0) o) = o) ∧
    numberMapping 3 (fun _ => 0) 1 = 1 :=
  number_mapping_bijection 3 (fun _ => 0) (by norm_num) (fun i _ _ => Nat.zero_le i)

/-! ## Claim C6 -/

/-- Claim C6 (amended): for every arc ('curved') track, regardless of its
charge, `getTrackEndPoint` (and the matching generator decay-point
formula, see Claim C2) uses the unsigned sweep `length·2π`: the end point
is `center + radius·(cos(angle + length·2π), sin(angle + length·2π))`, and
it is independent of the track's charge.  Handedness (the sign of the
charge) affects only the canvas drawing-direction flag and the spiral
winding, not the computed end point. -/
theorem arc_end_point_ignores_handedness (t : Track) (w h : ℝ) (q : ℤ)
    (ht : t.type = .curved) :
    getTrackEndPoint t w h =
      ⟨t.origin.x * w - Real.cos (t.angle.getD 0) * ((t.radius.getD 0.2) * min w h) +
        Real.cos (t.angle.getD 0 + (t.length.getD 0.3) * π * 2) *
          ((t.radius.getD 0.2) * min w h),
       t.origin.y * h - Real.sin (t.angle.getD 0) * ((t.radius.getD 0.2) * min w h) +
        Real.sin (t.angle.getD 0 + (t.length.getD 0.3) * π * 2) *
          ((t.radius.getD 0.2) * min w h)⟩ ∧
    getTrackEndPoint { t with charge := q } w h = getTrackEndPoint t w h := by
  constructor
  · simp only [getTrackEndPoint, ht]
  · simp only [getTrackEndPoint, ht]

/-- Claim C6 counterexample: for the negatively charged arc track with
start angle 0 and length 0.25, `getTrackEndPoint` returns
`center + r·(cos(π/2), sin(π/2)) = (0.4, 0.6)` (positive sweep), while the
spec's handedness-signed sweep formula would give
`center + r·(cos(−π/2), sin(−π/2)) = (0.4, 0.4)`: the claimed signed-sweep
end point disagrees with the code. -/
theorem arc_end_point_handedness_counterexample :
    getTrackEndPoint negativeArcTrack 1 1 = ⟨0.4, 0.6⟩ ∧
    specArcEndPointHanded negativeArcTrack 1 1 = ⟨0.4, 0.4⟩ ∧
    getTrackEndPoint negativeArcTrack 1 1 ≠ specArcEndPointHanded negativeArcTrack 1 1 := by
  have hsweep : ((0 : ℝ) + 0.25 * π * 2) = π / 2 := by ring
  have hcos : Real.cos ((0 : ℝ) + 0.25 * π * 2) = 0 := by
    rw [hsweep, Real.cos_pi_div_two]
  have hsin : Real.sin ((0 : ℝ) + 0.25 * π * 2) = 1 := by
    rw [hsweep, Real.sin_pi_div_two]
  have hsweep' : ((0 : ℝ) + ((-1 : ℤ).sign : ℝ) * 0.25 * π * 2) = -(π / 2) := by
    simp only [Int.sign_neg, Int.sign_one, Int.cast_neg, Int.cast_one]
    ring
  have hcos' : Real.cos ((0 : ℝ) + ((-1 : ℤ).sign : ℝ) * 0.25 * π * 2) = 0 := by
    rw [hsweep', Real.cos_neg, Real.cos_pi_div_two]
  have hsin' : Real.sin ((0 : ℝ) + ((-1 : ℤ).sign : ℝ) * 0.25 * π * 2) = -1 := by
    rw [hsweep', Real.sin_neg, Real.sin_pi_div_two]
  have h1 : getTrackEndPoint negativeArcTrack 1 1 = ⟨0.4, 0.6⟩ := by
    simp only [getTrackEndPoint, negativeArcTrack, Option.getD_some, min_self]
    rw [Pt.mk.injEq]
    constructor
    · rw [show ((0.1 : ℝ) * 1) = 0.1 by norm_num] at *
      rw [hcos]
      norm_num
    · rw [show ((0.1 : ℝ) * 1) = 0.1 by norm_num] at *
      rw [hsin]
      norm_num
  have h2 : specArcEndPointHanded negativeArcTrack 1 1 = ⟨0.4, 0.4⟩ := by
    simp only [specArcEndPointHanded, negativeArcTrack, Option.getD_some, min_self]
    rw [Pt.mk.injEq]
    constructor
    · rw [show ((0.1 : ℝ) * 1) = 0.1 by norm_num] at *
      rw [hcos']
      norm_num
    · rw [show ((0.1 : ℝ) * 1) = 0.1 by norm_num] at *
      rw [hsin']
      norm_num
  refine ⟨h1, h2, ?_⟩
  rw [h1, h2]
  intro hc
  rw [Pt.mk.injEq] at hc
  have := hc.2
  norm_num at this

/-- Witness for Claim C6: charge-independence of the arc end point at the
concrete negative arc track. -/
theorem arc_end_point_ignores_handedness_witness :
    getTrackEndPoint { negativeArcTrack with charge := 5 } 1 1 =
      getTrackEndPoint negativeArcTrack 1 1 :=
  (arc_end_point_ignores_handedness negativeArcTrack 1 1 5 rfl).2

/-! ## Claim C7 -/

/-- The reduce step of `getLineCanvasIntersection` computes, over a list of
candidates with positive parametric distances, an element of the list with
the minimal distance. -/
theorem foldl_min_spec (rest : List Cand) :
    ∀ (m : Cand), 0 < m.t → (∀ c ∈ rest, 0 < c.t) →
      (rest.foldl (fun m cur => if 0 < cur.t ∧ (m.t ≤ 0 ∨ cur.t < m.t) then cur else m) m)
          ∈ m :: rest ∧
      (rest.foldl (fun m cur => if 0 < cur.t ∧ (m.t ≤ 0 ∨ cur.t < m.t) then cur else m) m).t
          ≤ m.t ∧
      ∀ c ∈ rest,
        (rest.foldl (fun m cur => if 0 < cur.t ∧ (m.t ≤ 0 ∨ cur.t < m.t) then cur else m) m).t
          ≤ c.t := by
  induction rest with
  | nil =>
    intro m _ _
    exact ⟨List.mem_cons_self m [], le_rfl, by simp⟩
  | cons c cs ih =>
    intro m hm hpos
    have hcpos : 0 < c.t := hpos c (List.mem_cons_self c cs)
    have hcs : ∀ x ∈ cs, 0 < x.t := fun x hx => hpos x (List.mem_cons_of_mem c hx)
    simp only [List.foldl_cons]
    by_cases hlt : c.t < m.t
    · rw [if_pos ⟨hcpos, Or.inr hlt⟩]
      obtain ⟨hmem, hle, hall⟩ := ih c hcpos hcs
      refine ⟨List.mem_cons_of_mem m hmem, le_trans hle (le_of_lt hlt), ?_⟩
      intro x hx
      rcases List.mem_cons.mp hx with hx | hx
      · rw [hx]; exact hle
      · exact hall x hx
    · have hcond : ¬(0 < c.t ∧ (m.t ≤ 0 ∨ c.t < m.t)) := by
        rintro ⟨_, hmt | hct⟩
        · linarith
        · exact hlt hct
      rw [if_neg hcond]
      obtain ⟨hmem, hle, hall⟩ := ih m hm hcs
      refine ⟨?_, hle, ?_⟩
      · rcases List.mem_cons.mp hmem with hx | hx
        · rw [hx]; exact List.mem_cons_self m (c :: cs)
        · exact List.mem_cons_of_mem m (List.mem_cons_of_mem c hx)
      · intro x hx
        rcases List.mem_cons.mp hx with hx | hx
        · rw [hx]; exact le_trans hle (not_lt.mp hlt)
        · exact hall x hx

/-- For a start point strictly inside the rectangle, every admitted edge
candidate has a strictly positive parametric distance. -/
theorem lineCandidates_pos (sx sy angle w h : ℝ) (hx0 : 0 < sx) (hxw : sx < w)
    (hy0 : 0 < sy) (hyh : sy < h) :
    ∀ c ∈ lineCandidates sx sy angle w h, 0 < c.t := by
  intro c hc
  simp only [lineCandidates, List.mem_append] at hc
  rcases hc with ((hc | hc) | hc) | hc <;> split_ifs at hc with h1 h2 <;>
    simp only [List.mem_singleton, List.not_mem_nil] at hc
  · rw [hc]
    exact div_pos_iff.mpr (Or.inr ⟨by linarith, h1⟩)
  · rw [hc]
    exact div_pos (by linarith) h1
  · rw [hc]
    exact div_pos_iff.mpr (Or.inr ⟨by linarith, h1⟩)
  · rw [hc]
    exact div_pos (by linarith) h1

/-- Every admitted edge candidate lies on the rectangle boundary. -/
theorem lineCandidates_boundary (sx sy angle w h : ℝ) :
    ∀ c ∈ lineCandidates sx sy angle w h,
      c.x = 0 ∨ c.x = w ∨ c.y = 0 ∨ c.y = h := by
  intro c hc
  simp only [lineCandidates, List.mem_append] at hc
  rcases hc with ((hc | hc) | hc) | hc <;> split_ifs at hc with h1 h2 <;>
    simp only [List.mem_singleton, List.not_mem_nil] at hc
  · rw [hc]; exact Or.inl rfl
  · rw [hc]; exact Or.inr (Or.inl rfl)
  · rw [hc]; exact Or.inr (Or.inr (Or.inl rfl))
  · rw [hc]; exact Or.inr (Or.inr (Or.inr rfl))

/-- For a start point strictly inside the rectangle, at least one edge
candidate is admitted, whatever the ray's angle. -/
theorem lineCandidates_ne_nil (sx sy angle w h : ℝ) (hx0 : 0 < sx) (hxw : sx < w)
    (hy0 : 0 < sy) (hyh : sy < h) :
    lineCandidates sx sy angle w h ≠ [] := by
  intro hnil
  simp only [lineCandidates, List.append_eq_nil] at hnil
  obtain ⟨⟨⟨hL, hR⟩, hT⟩, hB⟩ := hnil
  set c := Real.cos angle with hcdef
  set s := Real.sin angle with hsdef
  have hBne : 0 < s → 0 ≤ sx + (h - sy) / s * c → sx + (h - sy) / s * c ≤ w → False := by
    intro hs h1 h2
    rw [if_pos hs, if_pos ⟨h1, h2⟩] at hB
    exact List.cons_ne_nil _ _ hB
  have hTne : s < 0 → 0 ≤ sx + (0 - sy) / s * c → sx + (0 - sy) / s * c ≤ w → False := by
    intro hs h1 h2
    rw [if_pos hs, if_pos ⟨h1, h2⟩] at hT
    exact List.cons_ne_nil _ _ hT
  rcases lt_trichotomy c 0 with hcos | hcos | hcos
  · -- the ray points left
    rw [if_pos hcos] at hL
    have htl : 0 < (0 - sx) / c := div_pos_iff.mpr (Or.inr ⟨by linarith, hcos⟩)
    have htlc : (0 - sx) / c * c = 0 - sx := div_mul_cancel₀ _ (ne_of_lt hcos)
    by_cases hyl : 0 ≤ sy + (0 - sx) / c * s ∧ sy + (0 - sx) / c * s ≤ h
    · rw [if_pos hyl] at hL
      exact List.cons_ne_nil _ _ hL
    · rcases le_or_lt 0 (sy + (0 - sx) / c * s) with hge | hlt0
      · -- the left-edge hit is below the chamber: the ray exits the bottom first
        have hgt : h < sy + (0 - sx) / c * s := by
          by_contra hle
          exact hyl ⟨hge, le_of_not_lt hle⟩
        have hs : 0 < s := by
          rcases mul_pos_iff.mp (show 0 < (0 - sx) / c * s by linarith) with ⟨_, hp⟩ | ⟨hn, _⟩
          · exact hp
          · linarith
        have htbs : (h - sy) / s * s = h - sy := div_mul_cancel₀ _ (ne_of_gt hs)
        have htb : 0 < (h - sy) / s := div_pos (by linarith) hs
        have horder : (h - sy) / s < (0 - sx) / c := by
          have hmul : (h - sy) / s * s < (0 - sx) / c * s := by
            rw [htbs]; linarith
          exact (mul_lt_mul_right hs).mp hmul
        refine hBne hs ?_ ?_
        · have hmm := mul_lt_mul_of_neg_right horder hcos
          rw [htlc] at hmm
          linarith
        · have hneg : (h - sy) / s * c < 0 := mul_neg_of_pos_of_neg htb hcos
          linarith
      · -- the left-edge hit is above the chamber: the ray exits the top first
        have hs : s < 0 := by
          rcases mul_neg_iff.mp (show (0 - sx) / c * s < 0 by linarith) with ⟨_, hp⟩ | ⟨hn, _⟩
          · exact hp
          · linarith
        have htts : (0 - sy) / s * s = 0 - sy := div_mul_cancel₀ _ (ne_of_lt hs)
        have htt : 0 < (0 - sy) / s := div_pos_iff.mpr (Or.inr ⟨by linarith, hs⟩)
        have horder : (0 - sy) / s < (0 - sx) / c := by
          have hmul : (0 - sx) / c * s < (0 - sy) / s * s := by
            rw [htts]; linarith
          exact (mul_lt_mul_right_of_neg hs).mp hmul
        refine hTne hs ?_ ?_
        · have hmm := mul_lt_mul_of_neg_right horder hcos
          rw [htlc] at hmm
          linarith
        · have hneg : (0 - sy) / s * c < 0 := mul_neg_of_pos_of_neg htt hcos
          linarith
  · -- vertical ray: sin angle = ±1, exits top or bottom at x = sx
    have hpyth := Real.sin_sq_add_cos_sq angle
    rw [← hsdef, ← hcdef, hcos] at hpyth
    have hs2 : s ^ 2 = 1 := by nlinarith [hpyth]
    rcases lt_trichotomy s 0 with hs | hs | hs
    · refine hTne hs ?_ ?_ <;> rw [hcos] <;> rw [mul_zero] <;> linarith
    · rw [hs] at hs2
      norm_num at hs2
    · refine hBne hs ?_ ?_ <;> rw [hcos] <;> rw [mul_zero] <;> linarith
  · -- the ray points right
    rw [if_pos hcos] at hR
    have htr : 0 < (w - sx) / c := div_pos (by linarith) hcos
    have htrc : (w - sx) / c * c = w - sx := div_mul_cancel₀ _ (ne_of_gt hcos)
    by_cases hyr : 0 ≤ sy + (w - sx) / c * s ∧ sy + (w - sx) / c * s ≤ h
    · rw [if_pos hyr] at hR
      exact List.cons_ne_nil _ _ hR
    · rcases le_or_lt 0 (sy + (w - sx) / c * s) with hge | hlt0
      · have hgt : h < sy + (w - sx) / c * s := by
          by_contra hle
          exact hyr ⟨hge, le_of_not_lt hle⟩
        have hs : 0 < s := by
          rcases mul_pos_iff.mp (show 0 < (w - sx) / c * s by linarith) with ⟨_, hp⟩ | ⟨hn, _⟩
          · exact hp
          · linarith
        have htbs : (h - sy) / s * s = h - sy := div_mul_cancel₀ _ (ne_of_gt hs)
        have htb : 0 < (h - sy) / s := div_pos (by linarith) hs
        have horder : (h - sy) / s < (w - sx) / c := by
          have hmul : (h - sy) / s * s < (w - sx) / c * s := by
            rw [htbs]; linarith
          exact (mul_lt_mul_right hs).mp hmul
        refine hBne hs ?_ ?_
        · have hpos' : 0 < (h - sy) / s * c := mul_pos htb hcos
          linarith
        · have hmm := mul_lt_mul_of_pos_right horder hcos
          rw [htrc] at hmm
          linarith
      · have hs : s < 0 := by
          rcases mul_neg_iff.mp (show (w - sx) / c * s < 0 by linarith) with ⟨_, hp⟩ | ⟨hn, _⟩
          · exact hp
          · linarith
        have htts : (0 - sy) / s * s = 0 - sy := div_mul_cancel₀ _ (ne_of_lt hs)
        have htt : 0 < (0 - sy) / s := div_pos_iff.mpr (Or.inr ⟨by linarith, hs⟩)
        have horder : (0 - sy) / s < (w - sx) / c := by
          have hmul : (w - sx) / c * s < (0 - sy) / s * s := by
            rw [htts]; linarith
          exact (mul_lt_mul_right_of_neg hs).mp hmul
        refine hTne hs ?_ ?_
        · have hpos' : 0 < (0 - sy) / s * c := mul_pos htt hcos
          linarith
        · have hmm := mul_lt_mul_of_pos_right horder hcos
          rw [htrc] at hmm
          linarith

/-- Claim C7: for a start point strictly inside the `w×h` rectangle and any
angle, `getLineCanvasIntersection` returns the admitted edge candidate with
the smallest (strictly positive) parametric distance — a point on the
rectangle boundary; and whenever no edge candidate qualifies it returns the
deterministic fallback `start + 2·max(w,h)·(cos angle, sin angle)`. -/
theorem line_canvas_intersection_spec (sx sy angle w h : ℝ) :
    (0 < sx → sx < w → 0 < sy → sy < h →
      ∃ cand ∈ lineCandidates sx sy angle w h,
        getLineCanvasIntersection sx sy angle w h = ⟨cand.x, cand.y⟩ ∧ 0 < cand.t ∧
        (∀ other ∈ lineCandidates sx sy angle w h, cand.t ≤ other.t) ∧
        (cand.x = 0 ∨ cand.x = w ∨ cand.y = 0 ∨ cand.y = h)) ∧
    (lineCandidates sx sy angle w h = [] →
      getLineCanvasIntersection sx sy angle w h =
        ⟨sx + Real.cos angle * (max w h * 2), sy + Real.sin angle * (max w h * 2)⟩) := by
  constructor
  · intro hx0 hxw hy0 hyh
    have hpos := lineCandidates_pos sx sy angle w h hx0 hxw hy0 hyh
    have hne := lineCandidates_ne_nil sx sy angle w h hx0 hxw hy0 hyh
    obtain ⟨c0, rest, hlist⟩ := List.exists_cons_of_ne_nil hne
    have hc0 : 0 < c0.t := hpos c0 (by rw [hlist]; exact List.mem_cons_self c0 rest)
    have hrest : ∀ x ∈ rest, 0 < x.t :=
      fun x hx => hpos x (by rw [hlist]; exact List.mem_cons_of_mem c0 hx)
    obtain ⟨hmem, hle, hall⟩ := foldl_min_spec rest c0 hc0 hrest
    refine ⟨rest.foldl (fun m cur => if 0 < cur.t ∧ (m.t ≤ 0 ∨ cur.t < m.t) then cur else m) c0,
      by rw [hlist]; exact hmem, ?_, ?_, ?_, ?_⟩
    · simp only [getLineCanvasIntersection, hlist]
    · exact hpos _ (by rw [hlist]; exact hmem)
    · intro other hother
      rw [hlist] at hother
      rcases List.mem_cons.mp hother with hx | hx
      · rw [hx]; exact hle
      · exact hall other hx
    · exact lineCandidates_boundary sx sy angle w h _ (by rw [hlist]; exact hmem)
  · intro hnil
    simp only [getLineCanvasIntersection, hnil]

/-- Witness for Claim C7: the inside start `(0.5, 0.5)` in the unit square
with a horizontal ray has a minimal candidate; and the degenerate start
`(0.5, 2)` above the square with a horizontal ray admits no candidate, so
the fallback point `(0.5 + 2·cos 0, 2 + 2·sin 0)` is returned. -/
theorem line_canvas_intersection_spec_witness :
    (∃ cand ∈ lineCandidates 0.5 0.5 0 1 1,
      getLineCanvasIntersection 0.5 0.5 0 1 1 = ⟨cand.x, cand.y⟩ ∧ 0 < cand.t ∧
      (∀ other ∈ lineCandidates 0.5 0.5 0 1 1, cand.t ≤ other.t) ∧
      (cand.x = 0 ∨ cand.x = 1 ∨ cand.y = 0 ∨ cand.y = 1)) ∧
    getLineCanvasIntersection 0.5 2 0 1 1 =
      ⟨0.5 + Real.cos 0 * (max 1 1 * 2), 2 + Real.sin 0 * (max 1 1 * 2)⟩ := by
  constructor
  · exact (line_canvas_intersection_spec 0.5 0.5 0 1 1).1
      (by norm_num) (by norm_num) (by norm_num) (by norm_num)
  · refine (line_canvas_intersection_spec 0.5 2 0 1 1).2 ?_
    simp only [lineCandidates, Real.cos_zero, Real.sin_zero]
    norm_num

/-! ## Claim C8 -/

/-- The strict-minimum scan either returns its starting state untouched
(when nothing beats the running minimum) or the first element attaining
the minimum below it. -/
theorem goMin_spec {α : Type} (dsq : α → ℝ) :
    ∀ (ls : List α) (m : ℝ) (best : Option α), (∀ b, best = some b → dsq b = m) →
      (goMin dsq ls m best = best ∧ ∀ l ∈ ls, m ≤ dsq l) ∨
      (∃ l ∈ ls, goMin dsq ls m best = some l ∧ dsq l < m ∧ ∀ x ∈ ls, dsq l ≤ dsq x) := by
  intro ls
  induction ls with
  | nil =>
    intro m best _
    exact Or.inl ⟨rfl, by simp⟩
  | cons l ls ih =>
    intro m best hinv
    by_cases hlt : dsq l < m
    · have hred : goMin dsq (l :: ls) m best = goMin dsq ls (dsq l) (some l) := by
        simp only [goMin, if_pos hlt]
      rcases ih (dsq l) (some l) (fun b hb => by cases hb; rfl) with ⟨heq, hall⟩ | hr
      · refine Or.inr ⟨l, List.mem_cons_self l ls, ?_, hlt, ?_⟩
        · rw [hred, heq]
        · intro x hx
          rcases List.mem_cons.mp hx with hx | hx
          · rw [hx]
          · exact hall x hx
      · obtain ⟨l2, hmem, heq, hlt2, hall⟩ := hr
        refine Or.inr ⟨l2, List.mem_cons_of_mem l hmem, ?_, lt_trans hlt2 hlt, ?_⟩
        · rw [hred, heq]
        · intro x hx
          rcases List.mem_cons.mp hx with hx | hx
          · rw [hx]; exact le_of_lt hlt2
          · exact hall x hx
    · have hred : goMin dsq (l :: ls) m best = goMin dsq ls m best := by
        simp only [goMin, if_neg hlt]
      rcases ih m best hinv with ⟨heq, hall⟩ | hr
      · refine Or.inl ⟨by rw [hred, heq], ?_⟩
        intro x hx
        rcases List.mem_cons.mp hx with hx | hx
        · rw [hx]; exact not_lt.mp hlt
        · exact hall x hx
      · obtain ⟨l2, hmem, heq, hlt2, hall⟩ := hr
        refine Or.inr ⟨l2, List.mem_cons_of_mem l hmem, by rw [hred, heq], hlt2, ?_⟩
        intro x hx
        rcases List.mem_cons.mp hx with hx | hx
        · rw [hx]
          exact le_trans (le_of_lt hlt2) (not_lt.mp hlt)
        · exact hall x hx

/-- Claim C8: in identified mode, whenever some rendered label lies within
the fixed 30-pixel radius of the pointer, the hover resolution returns the
nearest such label's track — regardless of the track origins; the
nearest-origin fallback (`findClosestTrack`, threshold 0.05 normalized) is
consulted only when no label is within the radius. -/
theorem hover_prefers_labels_within_radius
    (labels : List LabelPosition) (tracks : List Track) (px py nx ny : ℝ) :
    ((∃ l ∈ labels, labelDistSq px py l < LABEL_THRESHOLD * LABEL_THRESHOLD) →
      ∃ l ∈ labels, hoverTarget true labels tracks px py nx ny = some l.track ∧
        labelDistSq px py l < LABEL_THRESHOLD * LABEL_THRESHOLD ∧
        ∀ l2 ∈ labels, labelDistSq px py l ≤ labelDistSq px py l2) ∧
    ((∀ l ∈ labels, ¬ labelDistSq px py l < LABEL_THRESHOLD * LABEL_THRESHOLD) →
      hoverTarget true labels tracks px py nx ny = findClosestTrack tracks nx ny) := by
  constructor
  · rintro ⟨l0, hmem0, hlt0⟩
    have hlen : 0 < labels.length := List.length_pos.mpr (List.ne_nil_of_mem hmem0)
    rcases goMin_spec (labelDistSq px py) labels (LABEL_THRESHOLD * LABEL_THRESHOLD) none
        (fun b hb => by cases hb) with ⟨_, hall⟩ | hr
    · exact absurd hlt0 (not_lt.mpr (hall l0 hmem0))
    · obtain ⟨l, hmem, heq, hlt, hall⟩ := hr
      refine ⟨l, hmem, ?_, hlt, hall⟩
      simp only [hoverTarget, findClosestLabel, heq]
      rw [if_pos (show True ∧ 0 < labels.length from ⟨trivial, hlen⟩)]
  · intro hnone
    by_cases hlen : 0 < labels.length
    · rcases goMin_spec (labelDistSq px py) labels (LABEL_THRESHOLD * LABEL_THRESHOLD) none
          (fun b hb => by cases hb) with ⟨heq, _⟩ | hr
      · simp only [hoverTarget, findClosestLabel, heq]
        rw [if_pos (show True ∧ 0 < labels.length from ⟨trivial, hlen⟩)]
      · obtain ⟨l, hmem, _, hlt, _⟩ := hr
        exact absurd hlt (hnone l hmem)
    · have hcond : ¬(True ∧ 0 < labels.length) := fun hc => hlen hc.2
      simp only [hoverTarget]
      rw [if_neg hcond]

/-- Witness for Claim C8: a single rendered label 10 px from the pointer
resolves the hover to that label's track. -/
theorem hover_prefers_labels_within_radius_witness :
    ∃ l ∈ [(⟨negativeArcTrack, 100, 100, "π⁻"⟩ : LabelPosition)],
      hoverTarget true [(⟨negativeArcTrack, 100, 100, "π⁻"⟩ : LabelPosition)]
        [pionZeroTrackPS 30] 110 100 0.5 0.5 = some l.track ∧
      labelDistSq 110 100 l < LABEL_THRESHOLD * LABEL_THRESHOLD ∧
      ∀ l2 ∈ [(⟨negativeArcTrack, 100, 100, "π⁻"⟩ : LabelPosition)],
        labelDistSq 110 100 l ≤ labelDistSq 110 100 l2 :=
  (hover_prefers_labels_within_radius
    [(⟨negativeArcTrack, 100, 100, "π⁻"⟩ : LabelPosition)] [pionZeroTrackPS 30]
    110 100 0.5 0.5).1
    ⟨⟨negativeArcTrack, 100, 100, "π⁻"⟩, List.mem_cons_self _ _, by
      simp only [labelDistSq, LABEL_THRESHOLD]
      norm_num⟩

/-! ## Claim C10 -/

/-- Pre-reveal, a single decay product contributes no label positions
(labels are pushed only in identified mode). -/
theorem drawKinkProduct_labels_prereveal (t : Track) (p : DecayProduct)
    (w h kx ky : ℝ) (showForm : Bool) (numMap : ℕ → Option ℕ) (ambDash : List ℕ)
    (ambAlpha : ℝ) (counter : ℕ) :
    (drawKinkProduct t p w h kx ky false showForm numMap ambDash ambAlpha counter).2.1
      = [] := by
  cases hla : p.leptonAngle <;> cases hmc : p.muonCharge <;> cases showForm <;>
    simp [drawKinkProduct, hla, hmc]

/-- Pre-reveal, the whole decay kink contributes no label positions. -/
theorem drawDecayKink_labels_prereveal (t : Track) (w h : ℝ) (showForm : Bool)
    (numMap : ℕ → Option ℕ) (ambDash : List ℕ) (ambAlpha : ℝ) (counter : ℕ) :
    (drawDecayKink t w h false showForm numMap ambDash ambAlpha counter).2.1 = [] := by
  have haux : ∀ (kx ky : ℝ) (products : List DecayProduct)
      (acc : List DrawCmd × List LabelPosition × ℕ), acc.2.1 = [] →
      (products.foldl (drawKinkStep t w h kx ky false showForm numMap
        ambDash ambAlpha) acc).2.1 = [] := by
    intro kx ky products
    induction products with
    | nil => intro acc hacc; simpa using hacc
    | cons p ps ih =>
      intro acc hacc
      simp only [List.foldl_cons]
      refine ih _ ?_
      simp only [drawKinkStep, hacc, drawKinkProduct_labels_prereveal, List.append_nil,
        List.nil_append]
  unfold drawDecayKink
  cases hdp : t.decayPoint with
  | none => cases hpr : t.decayProducts <;> rfl
  | some dp =>
    cases hpr : t.decayProducts with
    | none => rfl
    | some products => exact haux _ _ products ([], [], counter) rfl

/-- Claim C10: a neutral track (charge 0) pre-reveal with the form hidden
produces no drawing commands and no label positions (`drawTrack` returns
before drawing); pre-reveal with the form shown it is still hidden unless
it has a decay point, and when it does, its own curve is drawn as the
faint gray dashed stroke (color `#888888`, width `max 0.5 (0.7·width)`,
dash `[2,4]`, alpha `0.3`) and still no label positions are recorded. -/
theorem neutral_track_hidden_prereveal (t : Track) (w h : ℝ) (highlight : Bool)
    (numMap : ℕ → Option ℕ) (counter : ℕ) (hq : t.charge = 0) :
    drawTrack t w h highlight false false numMap counter = ([], [], counter) ∧
    (t.decayPoint = none →
      drawTrack t w h highlight false true numMap counter = ([], [], counter)) ∧
    (t.decayPoint.isSome = true →
      ∃ rest, (drawTrack t w h highlight false true numMap counter).1 =
          DrawCmd.stroke "#888888" (max 0.5 (t.width * 0.7)) [2, 4] 0.3
            (mainTrackPath t w h) :: rest ∧
        (drawTrack t w h highlight false true numMap counter).2.1 = []) := by
  refine ⟨?_, ?_, ?_⟩
  · simp [drawTrack, hq]
  · intro hdp
    simp [drawTrack, hq, hdp]
  · intro hdp
    simp [drawTrack, hq, hdp]
    refine ⟨drawDecayKink_labels_prereveal t w h true numMap [2, 4] 0.3 counter, ?_⟩
    split_ifs <;> rfl

/-- Witness for Claim C10 at the π⁰ track of the pion scenario (neutral,
with a decay point). -/
theorem neutral_track_hidden_prereveal_witness :
    drawTrack (pionZeroTrackPS 30) 800 600 false false false (fun _ => none) 4 =
        ([], [], 4) ∧
    ∃ rest, (drawTrack (pionZeroTrackPS 30) 800 600 false false true (fun _ => none) 4).1 =
        DrawCmd.stroke "#888888" (max 0.5 ((pionZeroTrackPS 30).width * 0.7)) [2, 4] 0.3
          (mainTrackPath (pionZeroTrackPS 30) 800 600) :: rest ∧
      (drawTrack (pionZeroTrackPS 30) 800 600 false false true (fun _ => none) 4).2.1 = [] := by
  have h := neutral_track_hidden_prereveal (pionZeroTrackPS 30) 800 600 false
    (fun _ => none) 4 rfl
  exact ⟨h.1, h.2.2 rfl⟩

end

end CloudAcademy
